import Mathlib

/-!
# killo: a shallow embedding of `src/killo.c`

The C program is a single translation unit that puts the terminal in raw
mode, decodes key presses, moves a cursor inside a fixed viewport and repaints
the screen through an append buffer.

Conventions of the embedding

* C `int` objects are mathematical integers (`Int`).  The cursor arithmetic of
  the program is guarded (`c_x++` only below `screen_cols - 1`, and so on), so
  no wrap-around arises; where the width of `int` matters (the 32-byte buffer
  of `snprintf`) the theorems carry the range of a 32-bit `int` as hypothesis.
* A byte delivered by the terminal is a `Fin 256`.  Whether plain `char` is
  signed is implementation-defined, so the conversion of a byte to the value
  of a `char` object takes the signedness as a parameter.
* Bytes written by the program are `Char`s (all of them are ASCII).
* The outside world (pending results of `read`, the log of `write` calls, the
  outcome of the coming `realloc` calls, `errno`, the attribute set of the
  terminal and the registered exit handlers) is an explicit `World` value that
  is passed through every function that performs a system call.
* A function of the program that may leave through `exit`, wait for ever, or
  run into undefined behaviour returns a `Result`.
-/

namespace Killo

/-! ## Constants and enumerations (lines 11-25) -/

/-- Numeric value of a C character constant such as `'['`. -/
def chr (c : Char) : Int := (c.toNat : Int)

/-- Macro `CTRL_KEY(k)`, that is `(k) & 0x1f`: on a two's complement `int` the
bitwise and with `0x1f` keeps the five low bits, the residue modulo 32. -/
def CTRL_KEY (k : Int) : Int := k % 32

/-- Macro `ESCAPE_CHAR`, the character constant `'\x1b'`. -/
def ESCAPE_CHAR : Int := 0x1b

/-- Enumerator `ARROW_LEFT = 1000` of `enum EditorKey`. -/
def ARROW_LEFT : Int := 1000
/-- Enumerator `ARROW_RIGHT`. -/
def ARROW_RIGHT : Int := 1001
/-- Enumerator `ARROW_UP`. -/
def ARROW_UP : Int := 1002
/-- Enumerator `ARROW_DOWN`. -/
def ARROW_DOWN : Int := 1003
/-- Enumerator `PAGE_UP`. -/
def PAGE_UP : Int := 1004
/-- Enumerator `PAGE_DOWN`. -/
def PAGE_DOWN : Int := 1005

/-- File descriptor `STDIN_FILENO` of `<unistd.h>`. -/
def STDIN_FILENO : Int := 0
/-- File descriptor `STDOUT_FILENO` of `<unistd.h>`. -/
def STDOUT_FILENO : Int := 1
/-- Status `EXIT_SUCCESS` of `<stdlib.h>`. -/
def EXIT_SUCCESS : Int := 0
/-- Status `EXIT_FAILURE` of `<stdlib.h>`. -/
def EXIT_FAILURE : Int := 1
/-- Error number `EAGAIN` of `<errno.h>` (its Linux value). -/
def EAGAIN : Int := 11

/-! ## The outside world -/

/-- Outcome of one call `read(STDIN_FILENO, &c, 1)`. -/
inductive ReadResult where
  /-- The call returned 1 and stored the byte. -/
  | byte (b : Fin 256)
  /-- The call returned 0: the `VTIME` timeout expired without input. -/
  | timeout
  /-- The call returned -1 and set `errno`. -/
  | error (errno : Int)
  deriving DecidableEq, Repr

/-- Return value of the `read` call. -/
def ReadResult.ret : ReadResult → Int
  | .byte _ => 1
  | .timeout => 0
  | .error _ => -1

/-- The `struct termios` of `<termios.h>`: the four flag words, each an
unsigned 32-bit `tcflag_t`, and the array `c_cc` of control characters. -/
structure Termios where
  /-- Input modes. -/
  c_iflag : Nat := 0
  /-- Output modes. -/
  c_oflag : Nat := 0
  /-- Control modes. -/
  c_cflag : Nat := 0
  /-- Local modes. -/
  c_lflag : Nat := 0
  /-- Control characters, entry `k` at position `k`. -/
  c_cc : List Nat := []
  deriving DecidableEq, Repr

/-- State of everything outside the program that the program can act on or
observe. -/
structure World where
  /-- Outcomes of the coming `read` calls on the terminal, the next one first.
  Once the list is used up every further `read` times out. -/
  input : List ReadResult := []
  /-- Every `write(fd, buf, n)` call made so far, the oldest first, as the
  descriptor and the `n` bytes handed over. -/
  writes : List (Int × List Char) := []
  /-- Whether each coming `realloc` call succeeds, the next one first.  Once
  the list is used up every further call succeeds. -/
  allocs : List Bool := []
  /-- Current value of `errno`. -/
  errno : Int := 0
  /-- Messages handed to `perror`, the oldest first. -/
  perrors : List String := []
  /-- The attribute set of the terminal. -/
  termios : Termios := {}
  /-- Whether each coming `tcgetattr` or `tcsetattr` call succeeds, the next one
  first.  Once the list is used up every further call succeeds. -/
  tc_results : List Bool := []
  /-- How many times `disable_raw_mode` has been registered with `atexit`. -/
  exit_handlers : Nat := 0
  /-- What `ioctl(STDOUT_FILENO, TIOCGWINSZ, &ws)` reports: nothing when the call
  returns -1, else the fields `ws_row` and `ws_col`, each an `unsigned short`. -/
  winsize : Option (Fin 65536 × Fin 65536) := none
  /-- The `write` calls, numbered from 0 in the order of `writes`, that return
  another value than the count they were asked to write. -/
  failing_writes : List Nat := []
  deriving DecidableEq, Repr

/-- How a function of the program that performs system calls ends. -/
inductive Result (α : Type) where
  /-- The function returned a value, leaving the world as given. -/
  | ret (a : α) (w : World)
  /-- The function called `exit(status)` in the world given.  What `exit` then
  does, running the handler registered with `atexit`, is the matter of
  `run_exit`. -/
  | exited (status : Int) (w : World)
  /-- The function waits for ever for input that never arrives. -/
  | blocked
  /-- The function ran into undefined behaviour. -/
  | undefined
  deriving DecidableEq, Repr

/-- World after a `read` call that had outcome `r`, with `rest` still to
come: a failed call sets `errno`. -/
def World.after_read (w : World) (r : ReadResult) (rest : List ReadResult) : World :=
  match r with
  | .error e => { w with input := rest, errno := e }
  | _ => { w with input := rest }

/-- One call `read(STDIN_FILENO, &c, 1)`. -/
def read_stdin (w : World) : ReadResult × World :=
  match w.input with
  | [] => (.timeout, w)
  | r :: rest => (r, w.after_read r rest)

/-- One call `write(fd, buf, n)`; `buf` holds the `n` bytes.  Every caller
modelled here ignores the return value. -/
def sys_write (fd : Int) (buf : List Char) (w : World) : World :=
  { w with writes := w.writes ++ [(fd, buf)] }

/-- Value of a `char` object that holds byte `b`; `char_signed` tells whether
plain `char` is a signed type. -/
def char_of_byte (char_signed : Bool) (b : Fin 256) : Int :=
  if char_signed ∧ 128 ≤ b.val then (b.val : Int) - 256 else (b.val : Int)

/-! ## Output primitives (lines 317-325) -/

/-- Function `clear_screen`: `write(STDIN_FILENO, "\x1b[2j", 4)`. -/
def clear_screen (w : World) : World :=
  sys_write STDIN_FILENO ("\x1b[2j".toList.take 4) w

/-- Function `reposition_cursor`: `write(STDIN_FILENO, "\x1b[H", 3)`. -/
def reposition_cursor (w : World) : World :=
  sys_write STDIN_FILENO ("\x1b[H".toList.take 3) w

/-! ## Terminal (lines 83-174) -/

/-- Library function `perror`: the message is logged. -/
def perror (err_msg : String) (w : World) : World :=
  { w with perrors := w.perrors ++ [err_msg] }

/-- Function `die`: clear the screen, home the cursor, report, and leave with
`EXIT_FAILURE`. -/
def die {α : Type} (err_msg : String) (w : World) : Result α :=
  let w := clear_screen w
  let w := reposition_cursor w
  let w := perror err_msg w
  .exited EXIT_FAILURE w

/-- The loop at lines 124-128 of `editor_read_key`, run on the pending read
outcomes: `while ((num_read = read(STDIN_FILENO, &c, 1) == 1) != 1)`.  By
precedence the assignment stores the value of the comparison
`read(...) == 1` in `num_read`.  When the pending outcomes are used up without
a byte, every later read times out and the loop never ends. -/
def editor_read_key_loop (char_signed : Bool) (w : World) : List ReadResult → Result Int
  | [] => .blocked
  | r :: rest =>
    let w := w.after_read r rest
    let num_read : Int := if r.ret = 1 then 1 else 0
    if num_read ≠ 1 then
      if num_read = -1 ∧ w.errno ≠ EAGAIN then
        die "read" w
      else
        editor_read_key_loop char_signed w rest
    else
      match r with
      | .byte b => .ret (char_of_byte char_signed b) w
      | _ => .undefined -- nothing was stored in `c`: its value is indeterminate

/-- Function `editor_read_key` (lines 119-174). -/
def editor_read_key (char_signed : Bool) (w : World) : Result Int :=
  match editor_read_key_loop char_signed w w.input with
  | .ret c w =>
    if c = ESCAPE_CHAR then
      match read_stdin w with
      | (.byte b0, w) =>
        let seq0 := char_of_byte char_signed b0
        match read_stdin w with
        | (.byte b1, w) =>
          let seq1 := char_of_byte char_signed b1
          if seq0 = chr '[' then
            if seq1 ≥ chr '0' ∧ seq1 ≤ chr '9' then
              match read_stdin w with
              | (.byte b2, w) =>
                let seq2 := char_of_byte char_signed b2
                if seq2 = chr '~' then
                  if seq1 = chr '5' then .ret PAGE_UP w
                  else if seq1 = chr '6' then .ret PAGE_DOWN w
                  else .ret ESCAPE_CHAR w
                else .ret ESCAPE_CHAR w
              | (_, w) => .ret ESCAPE_CHAR w
            else
              if seq1 = chr 'A' then .ret ARROW_UP w
              else if seq1 = chr 'B' then .ret ARROW_DOWN w
              else if seq1 = chr 'C' then .ret ARROW_RIGHT w
              else if seq1 = chr 'D' then .ret ARROW_LEFT w
              else .ret ESCAPE_CHAR w
          else .ret ESCAPE_CHAR w
        | (_, w) => .ret ESCAPE_CHAR w
      | (_, w) => .ret ESCAPE_CHAR w
    else .ret c w
  | r => r

/-! ## Editor state (lines 54-63) -/

/-- The global `struct EditorConfig global_config`. -/
structure EditorConfig where
  /-- Terminal attributes saved by `enable_raw_mode`. -/
  orig_termios : Termios := {}
  /-- Number of rows of the viewport. -/
  screen_rows : Int
  /-- Number of columns of the viewport. -/
  screen_cols : Int
  /-- Cursor column, counted from 0. -/
  c_x : Int := 0
  /-- Cursor row, counted from 0. -/
  c_y : Int := 0
  deriving DecidableEq, Repr

/-! ## Input (lines 264-314) -/

/-- Function `editor_move_cursor` (lines 290-314). -/
def editor_move_cursor (key : Int) (E : EditorConfig) : EditorConfig :=
  if key = ARROW_LEFT then
    if E.c_x > 0 then { E with c_x := E.c_x - 1 } else E
  else if key = ARROW_RIGHT then
    if E.c_x < E.screen_cols - 1 then { E with c_x := E.c_x + 1 } else E
  else if key = ARROW_UP then
    if E.c_y > 0 then { E with c_y := E.c_y - 1 } else E
  else if key = ARROW_DOWN then
    if E.c_y < E.screen_rows - 1 then { E with c_y := E.c_y + 1 } else E
  else E

/-- The loop at lines 283-285 of `editor_process_keypress`, entered with
counter `i`: `for (...; i < screen_rows; ++i) editor_move_cursor(c == PAGE_UP ?
ARROW_UP : ARROW_DOWN)`.  The first argument bounds the number of iterations
left; the caller passes `screen_rows`, the exact number the loop makes. -/
def page_loop (c : Int) : Nat → Int → EditorConfig → EditorConfig
  | 0, _, E => E
  | fuel + 1, i, E =>
    if i < E.screen_rows then
      page_loop c fuel (i + 1)
        (editor_move_cursor (if c = PAGE_UP then ARROW_UP else ARROW_DOWN) E)
    else E

/-- The `switch` of `editor_process_keypress` (lines 269-287) on the key `c`
that `editor_read_key` returned. -/
def editor_process_key (c : Int) (E : EditorConfig) (w : World) : Result EditorConfig :=
  if c = CTRL_KEY (chr 'q') then
    let w := clear_screen w
    let w := reposition_cursor w
    .exited EXIT_SUCCESS w
  else if c = ARROW_LEFT ∨ c = ARROW_RIGHT ∨ c = ARROW_UP ∨ c = ARROW_DOWN then
    .ret (editor_move_cursor c E) w
  else if c = PAGE_UP ∨ c = PAGE_DOWN then
    .ret (page_loop c E.screen_rows.toNat 0 E) w
  else .ret E w

/-- Function `editor_process_keypress` (lines 265-288). -/
def editor_process_keypress (char_signed : Bool) (E : EditorConfig) (w : World) :
    Result EditorConfig :=
  match editor_read_key char_signed w with
  | .ret c w => editor_process_key c E w
  | .exited status w => .exited status w
  | .blocked => .blocked
  | .undefined => .undefined

/-- A sequence of key events dispatched one after the other through the
`switch` of `editor_process_keypress`; dispatching stops when the process
ends. -/
def process_keys : List Int → EditorConfig → World → Result EditorConfig
  | [], E, w => .ret E w
  | c :: cs, E, w =>
    match editor_process_key c E w with
    | .ret E w => process_keys cs E w
    | r => r

/-- The cursor assignments of `init_editor` (lines 393-394). -/
def init_cursor (E : EditorConfig) : EditorConfig :=
  { E with c_x := 0, c_y := 0 }

/-- The cursor lies inside the viewport. -/
def cursor_in_bounds (E : EditorConfig) : Prop :=
  0 ≤ E.c_x ∧ E.c_x ≤ E.screen_cols - 1 ∧ 0 ≤ E.c_y ∧ E.c_y ≤ E.screen_rows - 1

instance (E : EditorConfig) : Decidable (cursor_in_bounds E) := by
  unfold cursor_in_bounds; infer_instance

/-! ## Vocabulary of the statements about the decoder -/

/-- The byte whose value is the code of the ASCII character `c`. -/
def ascii (c : Char) : Fin 256 := ⟨c.toNat % 256, Nat.mod_lt _ (by decide)⟩

/-- The coming `read` produces no byte: it times out or fails. -/
def no_byte_next : List ReadResult → Prop
  | .byte _ :: _ => False
  | _ => True

instance (l : List ReadResult) : Decidable (no_byte_next l) := by
  unfold no_byte_next; split <;> infer_instance

/-! ## Append buffer (lines 34-42 and 237-262) -/

/-- The `struct AppendBuffer`: `buf` holds the bytes of the allocated block
(none for the null pointer) and `len` is the field `len`. -/
structure AppendBuffer where
  /-- Bytes of the block that `buf` points to. -/
  buf : List Char := []
  /-- Field `len`. -/
  len : Int := 0
  deriving DecidableEq, Repr

/-- Function `ab_init`: `buf = NULL` and `len = 0`. -/
def ab_init : AppendBuffer := { buf := [], len := 0 }

/-- One call of `realloc`: whether it succeeds, and the outcomes still to
come. -/
def next_alloc : List Bool → Bool × List Bool
  | [] => (true, [])
  | ok :: rest => (ok, rest)

/-- Function `ab_append` (lines 251-262), on the buffer paired with the
outcomes of the coming `realloc` calls; `s` holds the bytes of the object that
the pointer `s` refers to.  When `realloc` returns `NULL` the function returns
with the buffer untouched.  Otherwise `memcpy` copies `len` bytes of `s` behind
the `ab->len` bytes already there: with a negative `len`, or with fewer than
`len` bytes in `s`, that call has undefined behaviour (`none`). -/
def ab_append (s : List Char) (len : Int) (st : AppendBuffer × List Bool) :
    Option (AppendBuffer × List Bool) :=
  match next_alloc st.2 with
  | (false, allocs) => some (st.1, allocs)
  | (true, allocs) =>
    if len < 0 ∨ (s.length : Int) < len then none
    else some ({ buf := st.1.buf ++ s.take len.toNat, len := st.1.len + len }, allocs)

/-! ## Output (lines 327-384) -/

/-- Macro `KILLO_VERSION`. -/
def KILLO_VERSION : String := "0.0.1"

/-- The call `snprintf(welcome, size, "Kilo editor -- version %s",
KILLO_VERSION)`: the characters stored in `welcome` before the terminating
null (at most `size - 1`) and the value returned, the length of the whole
text. -/
def snprintf_welcome (size : Nat) : List Char × Int :=
  let text := "Kilo editor -- version ".toList ++ KILLO_VERSION.toList
  (text.take (size - 1), (text.length : Int))

/-- The loop at lines 345-348 of `editor_draw_rows`: `while (padding) {
ab_append(ab, " ", 1); padding--; }`.  The first argument bounds the number of
iterations left; the caller passes `padding`, the exact number the loop makes
from a `padding` that is not negative.  From a negative `padding` the loop
counts down until `padding--` overflows, which is undefined behaviour. -/
def pad_loop : Nat → Int → AppendBuffer × List Bool → Option (AppendBuffer × List Bool)
  | 0, padding, st => if padding ≠ 0 then none else some st
  | fuel + 1, padding, st =>
    if padding ≠ 0 then
      (ab_append " ".toList 1 st).bind (pad_loop fuel (padding - 1))
    else some st

/-- Lines 330-353 of `editor_draw_rows`: the content of row `i`, either the
banner (lines 331-350) or the filler glyph. -/
def draw_row_content (E : EditorConfig) (i : Int) (st : AppendBuffer × List Bool) :
    Option (AppendBuffer × List Bool) :=
  if i = Int.tdiv E.screen_rows 3 then
    let welcome := (snprintf_welcome 80).1
    let welcome_len := (snprintf_welcome 80).2
    let welcome_len := if welcome_len > E.screen_cols then E.screen_cols else welcome_len
    let padding := Int.tdiv (E.screen_cols - welcome_len) 2
    let st1 := if padding ≠ 0 then ab_append "~".toList 1 st else some st
    let padding := if padding ≠ 0 then padding - 1 else padding
    (st1.bind (pad_loop padding.toNat padding)).bind (ab_append welcome welcome_len)
  else
    ab_append "~".toList 1 st

/-- Body of the loop of `editor_draw_rows` (lines 330-359) for row `i`: the
content of the row, the erase-to-end-of-line sequence, and a line break unless
the row is the last. -/
def draw_row (E : EditorConfig) (i : Int) (st : AppendBuffer × List Bool) :
    Option (AppendBuffer × List Bool) :=
  ((draw_row_content E i st).bind (ab_append "\x1b[K".toList 3)).bind
    (fun st => if i < E.screen_rows - 1 then ab_append "\r\n".toList 2 st else some st)

/-- The loop of `editor_draw_rows`, entered with counter `i`: `for (...; i <
screen_rows; i++)`.  The first argument bounds the number of iterations left;
the caller passes `screen_rows`, the exact number the loop makes. -/
def draw_rows_loop (E : EditorConfig) :
    Nat → Int → AppendBuffer × List Bool → Option (AppendBuffer × List Bool)
  | 0, _, st => some st
  | fuel + 1, i, st =>
    if i < E.screen_rows then
      (draw_row E i st).bind (draw_rows_loop E fuel (i + 1))
    else some st

/-- Function `editor_draw_rows` (lines 327-361). -/
def editor_draw_rows (E : EditorConfig) (st : AppendBuffer × List Bool) :
    Option (AppendBuffer × List Bool) :=
  draw_rows_loop E E.screen_rows.toNat 0 st

/-- Decimal digits of `n`, the most significant first; the first argument
bounds the number of digits. -/
def decimal_digits : Nat → Nat → List Char
  | 0, _ => []
  | fuel + 1, n =>
    if n < 10 then [Nat.digitChar n]
    else decimal_digits fuel (n / 10) ++ [Nat.digitChar (n % 10)]

/-- Conversion `%d` of `printf`: the decimal numeral of `x`, with a minus sign
when `x` is negative. -/
def fmt_d (x : Int) : List Char :=
  if x < 0 then '-' :: decimal_digits (x.natAbs + 1) x.natAbs
  else decimal_digits (x.natAbs + 1) x.natAbs

/-- The call `snprintf(buf, size, "\x1b[%d;%dH", row, col)`: the characters
stored in `buf` before the terminating null, at most `size - 1`. -/
def snprintf_cursor (size : Nat) (row col : Int) : List Char :=
  ("\x1b[".toList ++ fmt_d row ++ ";".toList ++ fmt_d col ++ "H".toList).take (size - 1)

/-- Function `editor_refresh_screen` (lines 363-384). -/
def editor_refresh_screen (E : EditorConfig) (w : World) : Result Unit :=
  let ab := ab_init
  match (ab_append "\x1b[?25l".toList 6 (ab, w.allocs)).bind (ab_append "\x1b[H".toList 3) with
  | none => .undefined
  | some (ab, allocs) =>
    let w := { w with allocs := allocs }
    let w := clear_screen w
    let w := reposition_cursor w
    match editor_draw_rows E (ab, w.allocs) with
    | none => .undefined
    | some (ab, allocs) =>
      let buf := snprintf_cursor 32 (E.c_y + 1) (E.c_x + 1)
      match (ab_append buf (buf.length : Int) (ab, allocs)).bind
          (ab_append "\x1b[?25h".toList 6) with
      | none => .undefined
      | some (ab, allocs) =>
        let w := { w with allocs := allocs }
        let w := sys_write STDOUT_FILENO (ab.buf.take ab.len.toNat) w
        .ret () w

/-! ## Vocabulary of the statements about the frame -/

/-- Least value `INT_MIN` of a 32-bit `int`. -/
def INT_MIN : Int := -2147483648
/-- Greatest value `INT_MAX` of a 32-bit `int`. -/
def INT_MAX : Int := 2147483647

/-- Every coming `realloc` call succeeds. -/
def all_succeed (allocs : List Bool) : Prop := ∀ ok ∈ allocs, ok = true

instance (allocs : List Bool) : Decidable (all_succeed allocs) := by
  unfold all_succeed; infer_instance

/-- When every `realloc` call succeeds, the buffer operation `f` appends
exactly the bytes `out` to the buffer it is given, and every `realloc` call
after it still succeeds. -/
def Appends (f : AppendBuffer × List Bool → Option (AppendBuffer × List Bool))
    (out : List Char) : Prop :=
  ∀ ab allocs, all_succeed allocs →
    ∃ allocs2, f (ab, allocs) = some ({ buf := ab.buf ++ out, len := ab.len + out.length }, allocs2) ∧
      all_succeed allocs2

/-- Whatever the outcomes of `realloc`, the buffer operation `f` appends at
most `k` bytes behind those the buffer holds, without undefined behaviour. -/
def AppendsAtMost (f : AppendBuffer × List Bool → Option (AppendBuffer × List Bool))
    (k : Nat) : Prop :=
  ∀ ab allocs, ∃ out allocs2,
    f (ab, allocs) = some ({ buf := ab.buf ++ out, len := ab.len + out.length }, allocs2) ∧
      out.length ≤ k


/-! ## Vocabulary of the statements about paging -/

/-- The page move as the specification words it: `n` single steps of
`editor_move_cursor` with `key`, one after the other. -/
def repeated_steps (key : Int) : Nat → EditorConfig → EditorConfig
  | 0, E => E
  | n + 1, E => repeated_steps key n (editor_move_cursor key E)

/-! ## Vocabulary of the statements about consumed input -/

/-- Number of bytes among the outcomes of a list of `read` calls. -/
def byte_count : List ReadResult → Nat
  | [] => 0
  | .byte _ :: rest => byte_count rest + 1
  | _ :: rest => byte_count rest

/-! ## Vocabulary of the statements about the rows -/

/-- Content of row `i`: the bytes that lines 330-353 of `editor_draw_rows` put
in an empty buffer when every `realloc` call succeeds. -/
def row_content (E : EditorConfig) (i : Int) : List Char :=
  match draw_row_content E i (ab_init, []) with
  | some (ab, _) => ab.buf
  | none => []

/-- Row `i` as the specification words it: the content of the row, the
erase-to-end-of-line sequence, and a carriage return and line feed unless the
row is the last. -/
def row_segment (E : EditorConfig) (i : Nat) : List Char :=
  row_content E (i : Int) ++ "\x1b[K".toList ++
    (if (i : Int) < E.screen_rows - 1 then "\r\n".toList else [])

/-! ## Raw mode (lines 91-117) -/

/-- Input flag `BRKINT` of `<termios.h>` (its Linux value, as are the
following). -/
def BRKINT : Nat := 0o2
/-- Input flag `ICRNL`. -/
def ICRNL : Nat := 0o400
/-- Input flag `INPCK`. -/
def INPCK : Nat := 0o20
/-- Input flag `ISTRIP`. -/
def ISTRIP : Nat := 0o40
/-- Input flag `IXON`. -/
def IXON : Nat := 0o2000
/-- Output flag `OPOST`. -/
def OPOST : Nat := 0o1
/-- Control flag `CS8`. -/
def CS8 : Nat := 0o60
/-- Local flag `ECHO`. -/
def ECHO : Nat := 0o10
/-- Local flag `ICANON`. -/
def ICANON : Nat := 0o2
/-- Local flag `IEXTEN`. -/
def IEXTEN : Nat := 0o100000
/-- Local flag `ISIG`. -/
def ISIG : Nat := 0o1
/-- Index `VMIN` of the array `c_cc`. -/
def VMIN : Nat := 6
/-- Index `VTIME` of the array `c_cc`. -/
def VTIME : Nat := 5

/-- The operation `flags &= ~((tcflag_t) mask)` on a 32-bit `tcflag_t`. -/
def clear_flags (flags mask : Nat) : Nat := flags &&& (0xffffffff ^^^ mask)

/-- The outcome of the coming `tcgetattr` or `tcsetattr` call, and the world
with that outcome used up. -/
def next_tc (w : World) : Bool × World :=
  match w.tc_results with
  | [] => (true, w)
  | ok :: rest => (ok, { w with tc_results := rest })

/-- Library function `tcgetattr(STDIN_FILENO, &t)`: the attribute set of the
terminal, or nothing when the call returns -1. -/
def tcgetattr (w : World) : Option Termios × World :=
  match next_tc w with
  | (true, w) => (some w.termios, w)
  | (false, w) => (none, w)

/-- Library function `tcsetattr(STDIN_FILENO, TCSAFLUSH, &t)`: the value
returned; a call that succeeds makes `t` the attribute set of the terminal, a
call that fails leaves the terminal as it is. -/
def tcsetattr (t : Termios) (w : World) : Int × World :=
  match next_tc w with
  | (true, w) => (0, { w with termios := t })
  | (false, w) => (-1, w)

/-- Function `disable_raw_mode` (lines 91-96). -/
def disable_raw_mode (E : EditorConfig) (w : World) : Result Unit :=
  match tcsetattr E.orig_termios w with
  | (r, w) => if r = -1 then die "tcsetattr" w else .ret () w

/-- The attribute set `raw` that `enable_raw_mode` builds from the saved one
(lines 106-112). -/
def raw_termios (orig : Termios) : Termios :=
  { c_iflag := clear_flags orig.c_iflag (BRKINT ||| ICRNL ||| INPCK ||| ISTRIP ||| IXON)
    c_oflag := clear_flags orig.c_oflag OPOST
    c_cflag := orig.c_cflag ||| CS8
    c_lflag := clear_flags orig.c_lflag (ECHO ||| ICANON ||| IEXTEN ||| ISIG)
    c_cc := (orig.c_cc.set VMIN 0).set VTIME 1 }

/-- Function `enable_raw_mode` (lines 98-117): the global state it leaves, and
how the call ends.  The call of `atexit` registers `disable_raw_mode`. -/
def enable_raw_mode (E : EditorConfig) (w : World) : EditorConfig × Result Unit :=
  match tcgetattr w with
  | (none, w) => (E, die "tcgetattr" w)
  | (some t, w) =>
    let E := { E with orig_termios := t }
    let w := { w with exit_handlers := w.exit_handlers + 1 }
    let raw := raw_termios E.orig_termios
    match tcsetattr raw w with
    | (r, w) => if r = -1 then (E, die "tcsetattr" w) else (E, .ret () w)

/-- How the process ends. -/
inductive Ending where
  /-- The process terminated with the status, leaving the world as given. -/
  | terminated (status : Int) (w : World)
  /-- The process ran into undefined behaviour in the world given. -/
  | undefined (w : World)
  deriving DecidableEq, Repr

/-- The handlers that `exit` calls, `n` registrations of `disable_raw_mode`
being left to run. -/
def run_handlers : Nat → EditorConfig → World → Result Unit
  | 0, _, w => .ret () w
  | n + 1, E, w =>
    match disable_raw_mode E w with
    | .ret () w => run_handlers n E w
    | r => r

/-- Library function `exit(status)`, called when the global state is `E`: the
registered handlers run, then the process terminates with `status`.  A handler
that calls `exit` again, as `disable_raw_mode` does through `die`, makes the
behaviour undefined. -/
def run_exit (status : Int) (E : EditorConfig) (w : World) : Ending :=
  match run_handlers w.exit_handlers E w with
  | .ret () w => .terminated status w
  | .exited _ w => .undefined w
  | .blocked => .undefined w
  | .undefined => .undefined w

/-! ## Window size (lines 176-235) and start-up (lines 387-395) -/

/-- One call `write(fd, buf, n)` whose return value the caller inspects: the
value returned, `n` or -1. -/
def sys_write_ret (fd : Int) (buf : List Char) (w : World) : Int × World :=
  (if w.writes.length ∈ w.failing_writes then -1 else (buf.length : Int), sys_write fd buf w)

/-- The loop at lines 189-195 of `_get_win_size_by_cursor`, entered with the
bytes `buf` already stored: `while (i < sizeof(buf) - 1)` reads one byte and
leaves when the read gives no byte or the byte is `R`.  The first argument is
the number `31 - i` of iterations left. -/
def read_reply (char_signed : Bool) : Nat → World → List (Fin 256) → List (Fin 256) × World
  | 0, w, buf => (buf, w)
  | fuel + 1, w, buf =>
    match read_stdin w with
    | (.byte b, w) =>
      if char_of_byte char_signed b = chr 'R' then (buf, w)
      else read_reply char_signed fuel w (buf ++ [b])
    | (_, w) => (buf, w)

/-- Library function `isspace` in the C locale. -/
def is_space (c : Int) : Bool := c = 32 || (9 ≤ c && c ≤ 13)

/-- Library function `isdigit`. -/
def is_digit (c : Int) : Bool := chr '0' ≤ c && c ≤ chr '9'

/-- Outcome of one conversion `%d` of `sscanf`. -/
inductive Scan where
  /-- No numeral at this place of the input. -/
  | fail
  /-- A numeral that no `int` can hold: the behaviour is undefined. -/
  | overflow
  /-- The value of the numeral, and the input behind it. -/
  | ok (value : Int) (rest : List Int)
  deriving DecidableEq, Repr

/-- Conversion `%d` of `sscanf` on the characters `s`: white space is
skipped, then come an optional sign and the decimal digits. -/
def scan_d (s : List Int) : Scan :=
  let s := s.dropWhile is_space
  let negative := s.head? = some (chr '-')
  let s := if s.head? = some (chr '-') ∨ s.head? = some (chr '+') then s.tail else s
  let digits := s.takeWhile is_digit
  let value := digits.foldl (fun v d => 10 * v + (d - chr '0')) 0
  let value := if negative then -value else value
  if digits = [] then .fail
  else if value < INT_MIN ∨ INT_MAX < value then .overflow
  else .ok value (s.dropWhile is_digit)

/-- The call `sscanf(s, "%d;%d", rows, cols)` in state `E`: the value returned
and the state with the integers assigned, or nothing when the behaviour is
undefined. -/
def sscanf_rows_cols (s : List Int) (E : EditorConfig) : Option (Int × EditorConfig) :=
  match scan_d s with
  | .overflow => none
  | .fail => some (if s.dropWhile is_space = [] then -1 else 0, E)
  | .ok rows rest =>
    let E := { E with screen_rows := rows }
    match rest with
    | c :: rest =>
      if c = chr ';' then
        match scan_d rest with
        | .overflow => none
        | .fail => some (1, E)
        | .ok cols _ => some (2, { E with screen_cols := cols })
      else some (1, E)
    | [] => some (1, E)

/-- Function `_get_win_size_by_cursor` (lines 176-208), called with the
addresses of `screen_rows` and `screen_cols`: the global state it leaves, and
the value returned. -/
def _get_win_size_by_cursor (char_signed : Bool) (E : EditorConfig) (w : World) :
    EditorConfig × Result Int :=
  match sys_write_ret STDOUT_FILENO ("\x1b[999C\x1b[999B".toList.take 12) w with
  | (r, w) =>
    if r ≠ 12 then (E, .ret (-1) w)
    else
      match sys_write_ret STDOUT_FILENO ("\x1b[6n".toList.take 4) w with
      | (r, w) =>
        if r ≠ 4 then (E, .ret (-1) w)
        else
          match read_reply char_signed 31 w [] with
          | (reply, w) =>
            let buf : List Int := reply.map (char_of_byte char_signed) ++ [0]
            if buf.getD 0 0 ≠ chr '\x1b' ∨ buf.getD 1 0 ≠ chr '[' then (E, .ret (-1) w)
            else
              match sscanf_rows_cols ((buf.drop 2).takeWhile (fun c => c ≠ 0)) E with
              | none => (E, .undefined)
              | some (n, E) => if n ≠ 2 then (E, .ret (-1) w) else (E, .ret 0 w)

/-- Function `_get_win_size_by_ioctl` (lines 210-222): the global state it
leaves, and the value returned. -/
def _get_win_size_by_ioctl (E : EditorConfig) (w : World) : EditorConfig × Int :=
  match w.winsize with
  | none => (E, -1)
  | some (ws_row, ws_col) =>
    if ws_col.val = 0 ∨ ws_row.val = 0 then (E, -1)
    else ({ E with screen_rows := (ws_row.val : Int), screen_cols := (ws_col.val : Int) }, 0)

/-- Function `get_window_size` (lines 224-235). -/
def get_window_size (char_signed : Bool) (E : EditorConfig) (w : World) :
    EditorConfig × Result Int :=
  match _get_win_size_by_ioctl E w with
  | (E, res) =>
    if res ≠ 0 then _get_win_size_by_cursor char_signed E w
    else (E, .ret res w)

/-- Function `init_editor` (lines 387-395): the global state it leaves, and how
the call ends. -/
def init_editor (char_signed : Bool) (E : EditorConfig) (w : World) :
    EditorConfig × Result Unit :=
  match get_window_size char_signed E w with
  | (E, .ret res w) =>
    if res = -1 then (E, die "get_window_size" w)
    else (init_cursor E, .ret () w)
  | (E, .exited status w) => (E, .exited status w)
  | (E, .blocked) => (E, .blocked)
  | (E, .undefined) => (E, .undefined)

/-- The loop `while (1)` of `main` (lines 74-77), for at most `n` iterations:
the global state, and how the loop ended, a return standing for a loop that is
still running after `n` iterations. -/
def main_loop (char_signed : Bool) : Nat → EditorConfig → World → EditorConfig × Result Unit
  | 0, E, w => (E, .ret () w)
  | n + 1, E, w =>
    match editor_refresh_screen E w with
    | .ret () w =>
      match editor_process_keypress char_signed E w with
      | .ret E w => main_loop char_signed n E w
      | .exited status w => (E, .exited status w)
      | .blocked => (E, .blocked)
      | .undefined => (E, .undefined)
    | r => (E, r)

/-- Function `main` (lines 69-80) from the global state `E`, its loop running
for at most `n` iterations. -/
def main_steps (char_signed : Bool) (n : Nat) (E : EditorConfig) (w : World) :
    EditorConfig × Result Unit :=
  match enable_raw_mode E w with
  | (E, .ret () w) =>
    match init_editor char_signed E w with
    | (E, .ret () w) => main_loop char_signed n E w
    | r => r
  | r => r

/-- How the process ends, when `main` has called `exit` within `n` iterations
of its loop. -/
def main_ending (char_signed : Bool) (n : Nat) (E : EditorConfig) (w : World) :
    Option Ending :=
  match main_steps char_signed n E w with
  | (E, .exited status w) => some (run_exit status E w)
  | _ => none

/-! ## Vocabulary of the statements about the terminal attributes -/

/-- The part of the world that raw mode is about: the attribute set of the
terminal, the outcomes of the coming `tcgetattr` and `tcsetattr` calls, and the
number of registered exit handlers. -/
def World.terminal (w : World) : Termios × List Bool × Nat :=
  (w.termios, w.tc_results, w.exit_handlers)

/-- The world in which the process ended. -/
def Ending.world : Ending → World
  | .terminated _ w => w
  | .undefined w => w

/-- The global state `global_config` at the start of the process: an object of
static storage duration is initialised to zero. -/
def global_config : EditorConfig := { screen_rows := 0, screen_cols := 0 }

/-- An attribute set of a terminal in cooked mode: input translation and flow
control, output processing, echo, canonical input and signals all on. -/
def cooked_termios : Termios :=
  { c_iflag := ICRNL ||| IXON
    c_oflag := OPOST
    c_lflag := ECHO ||| ICANON ||| IEXTEN ||| ISIG }

/-- A world in which the terminal is in cooked mode and reports one row and one
column, the user types Ctrl+Q, and the `tcgetattr` and `tcsetattr` calls have
the outcomes `tc`. -/
def quit_world (tc : List Bool) : World :=
  { input := [.byte 0x11]
    winsize := some (1, 1)
    termios := cooked_termios
    tc_results := tc }

/-! ## Cursor movement: the clamping invariant -/

theorem editor_move_cursor_geometry (key : Int) (E : EditorConfig) :
    (editor_move_cursor key E).screen_rows = E.screen_rows ∧
    (editor_move_cursor key E).screen_cols = E.screen_cols := by
  unfold editor_move_cursor
  split_ifs <;> exact ⟨rfl, rfl⟩

theorem editor_move_cursor_in_bounds (key : Int) (E : EditorConfig)
    (h : cursor_in_bounds E) : cursor_in_bounds (editor_move_cursor key E) := by
  unfold cursor_in_bounds at h ⊢
  unfold editor_move_cursor
  split_ifs <;> (try dsimp only) <;> omega

theorem page_loop_geometry (c : Int) (fuel : Nat) (i : Int) (E : EditorConfig) :
    (page_loop c fuel i E).screen_rows = E.screen_rows ∧
    (page_loop c fuel i E).screen_cols = E.screen_cols := by
  induction fuel generalizing i E with
  | zero => simp [page_loop]
  | succ n ih =>
    rw [page_loop]
    by_cases hi : i < E.screen_rows
    · rw [if_pos hi]
      obtain ⟨h1, h2⟩ := ih (i + 1) (editor_move_cursor (if c = PAGE_UP then ARROW_UP else ARROW_DOWN) E)
      obtain ⟨g1, g2⟩ := editor_move_cursor_geometry (if c = PAGE_UP then ARROW_UP else ARROW_DOWN) E
      exact ⟨h1.trans g1, h2.trans g2⟩
    · rw [if_neg hi]
      exact ⟨rfl, rfl⟩

theorem page_loop_in_bounds (c : Int) (fuel : Nat) (i : Int) (E : EditorConfig)
    (h : cursor_in_bounds E) : cursor_in_bounds (page_loop c fuel i E) := by
  induction fuel generalizing i E with
  | zero => simpa [page_loop] using h
  | succ n ih =>
    rw [page_loop]
    by_cases hi : i < E.screen_rows
    · rw [if_pos hi]
      exact ih _ _ (editor_move_cursor_in_bounds _ E h)
    · rw [if_neg hi]
      exact h

/-- A key other than the quit key makes the `switch` return, with the world
untouched, the geometry unchanged and the cursor still inside the viewport. -/
theorem editor_process_key_in_bounds (c : Int) (E : EditorConfig) (w : World)
    (hq : c ≠ CTRL_KEY (chr 'q')) (h : cursor_in_bounds E) :
    ∃ E2, editor_process_key c E w = .ret E2 w ∧ cursor_in_bounds E2 ∧
      E2.screen_rows = E.screen_rows ∧ E2.screen_cols = E.screen_cols := by
  unfold editor_process_key
  rw [if_neg hq]
  split_ifs
  · exact ⟨_, rfl, editor_move_cursor_in_bounds c E h, editor_move_cursor_geometry c E⟩
  · exact ⟨_, rfl, page_loop_in_bounds c _ 0 E h, page_loop_geometry c _ 0 E⟩
  · exact ⟨E, rfl, h, rfl, rfl⟩

theorem process_keys_in_bounds (keys : List Int) (E : EditorConfig) (w : World)
    (hq : ∀ k ∈ keys, k ≠ CTRL_KEY (chr 'q')) (h : cursor_in_bounds E) :
    ∃ E2, process_keys keys E w = .ret E2 w ∧ cursor_in_bounds E2 ∧
      E2.screen_rows = E.screen_rows ∧ E2.screen_cols = E.screen_cols := by
  induction keys generalizing E with
  | nil => exact ⟨E, rfl, h, rfl, rfl⟩
  | cons k ks ih =>
    obtain ⟨E1, h1, b1, r1, c1⟩ :=
      editor_process_key_in_bounds k E w (hq k (List.mem_cons_self k ks)) h
    obtain ⟨E2, h2, b2, r2, c2⟩ :=
      ih E1 (fun k hk => hq k (List.mem_cons_of_mem _ hk)) b1
    refine ⟨E2, ?_, b2, r2.trans r1, c2.trans c1⟩
    simp only [process_keys, h1]
    exact h2

theorem init_cursor_in_bounds (E : EditorConfig) (hrows : 1 ≤ E.screen_rows)
    (hcols : 1 ≤ E.screen_cols) : cursor_in_bounds (init_cursor E) := by
  unfold cursor_in_bounds init_cursor
  simp
  omega

/-- C1 (clamping invariant).  In a viewport of at least one row and one column,
start from the cursor that `init_editor` sets or from any cursor inside the
viewport.  Every finite sequence of key events none of which is the quit key
(arrows, page keys, any other value) is dispatched to the end by the `switch`
of `editor_process_keypress`, leaves the geometry as it was, and leaves the
cursor with `0 <= c_x <= screen_cols - 1` and `0 <= c_y <= screen_rows - 1`.
The same holds for one call of `editor_process_keypress` on any input stream
whenever that call returns. -/
theorem C1_clamping_invariant (E : EditorConfig) (w : World) (keys : List Int)
    (hrows : 1 ≤ E.screen_rows) (hcols : 1 ≤ E.screen_cols)
    (hstart : (∃ E0, E = init_cursor E0) ∨ cursor_in_bounds E)
    (hq : ∀ k ∈ keys, k ≠ CTRL_KEY (chr 'q')) :
    (∃ E2, process_keys keys E w = .ret E2 w ∧
      (0 ≤ E2.c_x ∧ E2.c_x ≤ E2.screen_cols - 1 ∧ 0 ≤ E2.c_y ∧ E2.c_y ≤ E2.screen_rows - 1) ∧
      E2.screen_rows = E.screen_rows ∧ E2.screen_cols = E.screen_cols) ∧
    (∀ char_signed E2 w2, editor_process_keypress char_signed E w = .ret E2 w2 →
      0 ≤ E2.c_x ∧ E2.c_x ≤ E2.screen_cols - 1 ∧ 0 ≤ E2.c_y ∧ E2.c_y ≤ E2.screen_rows - 1) := by
  have hin : cursor_in_bounds E := by
    rcases hstart with ⟨E0, rfl⟩ | h
    · exact init_cursor_in_bounds E0 hrows hcols
    · exact h
  refine ⟨process_keys_in_bounds keys E w hq hin, ?_⟩
  intro cs E2 w2 hret
  unfold editor_process_keypress at hret
  cases hk : editor_read_key cs w with
  | ret c w1 =>
    rw [hk] at hret
    by_cases hc : c = CTRL_KEY (chr 'q')
    · simp [editor_process_key, hc] at hret
    · obtain ⟨E3, h3, b3, -, -⟩ := editor_process_key_in_bounds c E w1 hc hin
      simp only [h3] at hret
      cases hret
      exact b3
  | exited s w1 => rw [hk] at hret; cases hret
  | blocked => rw [hk] at hret; cases hret
  | undefined => rw [hk] at hret; cases hret

/-- Witness of C1: a 24 by 80 viewport, the cursor of `init_editor`, and the
keys down, page down, right, `a`, escape, page up, left. -/
theorem C1_clamping_invariant_witness :
    (∃ E2, process_keys [ARROW_DOWN, PAGE_DOWN, ARROW_RIGHT, 97, 27, PAGE_UP, ARROW_LEFT]
        { screen_rows := 24, screen_cols := 80 } {} = .ret E2 {} ∧
      (0 ≤ E2.c_x ∧ E2.c_x ≤ E2.screen_cols - 1 ∧ 0 ≤ E2.c_y ∧ E2.c_y ≤ E2.screen_rows - 1) ∧
      E2.screen_rows = 24 ∧ E2.screen_cols = 80) :=
  (C1_clamping_invariant { screen_rows := 24, screen_cols := 80 } {}
    [ARROW_DOWN, PAGE_DOWN, ARROW_RIGHT, 97, 27, PAGE_UP, ARROW_LEFT]
    (by decide) (by decide) (Or.inr (by decide)) (by decide)).1

/-! ## The key decoder -/

theorem char_of_byte_of_lt (char_signed : Bool) (b : Fin 256) (h : b.val < 128) :
    char_of_byte char_signed b = (b.val : Int) := by
  unfold char_of_byte
  rw [if_neg]
  omega

theorem char_of_byte_eq_iff (char_signed : Bool) (b : Fin 256) (n : Nat) (hn : n < 128) :
    char_of_byte char_signed b = (n : Int) ↔ b.val = n := by
  unfold char_of_byte
  split_ifs with h <;> omega

theorem editor_read_key_loop_byte (char_signed : Bool) (w : World) (b : Fin 256)
    (rest : List ReadResult) :
    editor_read_key_loop char_signed w (.byte b :: rest) =
      .ret (char_of_byte char_signed b) { w with input := rest } := by
  simp [editor_read_key_loop, ReadResult.ret, World.after_read]

theorem editor_read_key_loop_skip (char_signed : Bool) (w : World) (r : ReadResult)
    (rest : List ReadResult) (hr : r.ret ≠ 1) :
    editor_read_key_loop char_signed w (r :: rest) =
      editor_read_key_loop char_signed (w.after_read r rest) rest := by
  simp [editor_read_key_loop, hr]

/-- The retry loop of `editor_read_key` never leaves through `die`. -/
theorem editor_read_key_loop_not_exited (char_signed : Bool) (w : World)
    (l : List ReadResult) (status : Int) (w2 : World) :
    editor_read_key_loop char_signed w l ≠ .exited status w2 := by
  induction l generalizing w with
  | nil => simp [editor_read_key_loop]
  | cons r rest ih =>
    cases r with
    | byte b => simp [editor_read_key_loop_byte]
    | timeout =>
      rw [editor_read_key_loop_skip _ _ _ _ (by simp [ReadResult.ret])]
      exact ih _
    | error e =>
      rw [editor_read_key_loop_skip _ _ _ _ (by simp [ReadResult.ret])]
      exact ih _

/-- Reads that produce no byte in front of the input are skipped by
`editor_read_key`; only `errno` may differ afterwards. -/
theorem editor_read_key_skip (char_signed : Bool) (w : World) (pre s : List ReadResult)
    (hpre : ∀ r ∈ pre, r.ret ≠ 1) :
    ∃ e, editor_read_key char_signed { w with input := pre ++ s } =
      editor_read_key char_signed { w with input := s, errno := e } := by
  induction pre generalizing w with
  | nil => exact ⟨w.errno, rfl⟩
  | cons r pre ih =>
    have hr : r.ret ≠ 1 := hpre r (List.mem_cons_self r pre)
    cases r with
    | byte b => exact absurd rfl hr
    | timeout =>
      obtain ⟨e, he⟩ := ih w (fun r h => hpre r (List.mem_cons_of_mem _ h))
      refine ⟨e, ?_⟩
      rw [← he]
      simp only [editor_read_key, List.cons_append]
      rw [editor_read_key_loop_skip _ _ _ _ (by simp [ReadResult.ret])]
      cases pre <;> cases s <;> rfl
    | error e0 =>
      obtain ⟨e, he⟩ := ih { w with errno := e0 } (fun r h => hpre r (List.mem_cons_of_mem _ h))
      refine ⟨e, ?_⟩
      rw [← he]
      simp only [editor_read_key, List.cons_append]
      rw [editor_read_key_loop_skip _ _ _ _ (by simp [ReadResult.ret])]
      cases pre <;> cases s <;> rfl

theorem char_of_byte_ascii (char_signed : Bool) (c : Char) (h : c.toNat < 128) :
    char_of_byte char_signed (ascii c) = chr c := by
  have hv : (ascii c).val = c.toNat := by
    show c.toNat % 256 = c.toNat
    omega
  rw [char_of_byte_of_lt _ _ (by omega), hv]
  rfl

theorem char_of_byte_esc (char_signed : Bool) : char_of_byte char_signed 0x1b = ESCAPE_CHAR :=
  char_of_byte_of_lt char_signed 0x1b (by decide)

/-- C2 (arrow decoding).  On every input stream whose next three bytes are
0x1B, `[` and one of `A`, `B`, `C`, `D`, whatever follows them and whatever the
signedness of `char`, `editor_read_key` returns `ARROW_UP`, `ARROW_DOWN`,
`ARROW_RIGHT`, `ARROW_LEFT` respectively and leaves exactly the bytes after those
three in the input; nothing else in the world changes. -/
theorem C2_arrow_decoding (char_signed : Bool) (w : World) (rest : List ReadResult) :
    editor_read_key char_signed
        { w with input := .byte 0x1b :: .byte (ascii '[') :: .byte (ascii 'A') :: rest } =
      .ret ARROW_UP { w with input := rest } ∧
    editor_read_key char_signed
        { w with input := .byte 0x1b :: .byte (ascii '[') :: .byte (ascii 'B') :: rest } =
      .ret ARROW_DOWN { w with input := rest } ∧
    editor_read_key char_signed
        { w with input := .byte 0x1b :: .byte (ascii '[') :: .byte (ascii 'C') :: rest } =
      .ret ARROW_RIGHT { w with input := rest } ∧
    editor_read_key char_signed
        { w with input := .byte 0x1b :: .byte (ascii '[') :: .byte (ascii 'D') :: rest } =
      .ret ARROW_LEFT { w with input := rest } := by
  refine ⟨?_, ?_, ?_, ?_⟩ <;>
  simp [editor_read_key, editor_read_key_loop_byte, read_stdin, World.after_read,
    char_of_byte_esc, char_of_byte_ascii, chr]


/-- C3 (page-key decoding).  On every input stream whose next four bytes are
0x1B, `[`, a digit `d` in `0`..`9` and a final byte `f`, `editor_read_key` returns
a key `k` having consumed exactly those four bytes, where `k` is `PAGE_UP` exactly
when `d` is `5` and `f` is `~`, `k` is `PAGE_DOWN` exactly when `d` is `6` and `f`
is `~`, and `k` is the bare escape 0x1B for every other pair. -/
theorem C3_page_key_decoding (char_signed : Bool) (w : World) (d f : Fin 256)
    (rest : List ReadResult) (hd : ascii '0' ≤ d ∧ d ≤ ascii '9') :
    ∃ k, editor_read_key char_signed
          { w with input := .byte 0x1b :: .byte (ascii '[') :: .byte d :: .byte f :: rest } =
        .ret k { w with input := rest } ∧
      (k = PAGE_UP ↔ d = ascii '5' ∧ f = ascii '~') ∧
      (k = PAGE_DOWN ↔ d = ascii '6' ∧ f = ascii '~') ∧
      (¬ (d = ascii '5' ∧ f = ascii '~') → ¬ (d = ascii '6' ∧ f = ascii '~') →
        k = ESCAPE_CHAR) := by
  obtain ⟨hd0, hd9⟩ := hd
  have h0 : 48 ≤ d.val := hd0
  have h9 : d.val ≤ 57 := hd9
  have hdv : char_of_byte char_signed d = (d.val : Int) :=
    char_of_byte_of_lt char_signed d (by omega)
  have hf : char_of_byte char_signed f = 126 ↔ f.val = 126 :=
    char_of_byte_eq_iff char_signed f 126 (by decide)
  have e5 : d = ascii '5' ↔ d.val = 53 := Fin.ext_iff
  have e6 : d = ascii '6' ↔ d.val = 54 := Fin.ext_iff
  have ef : f = ascii '~' ↔ f.val = 126 := Fin.ext_iff
  simp only [editor_read_key, editor_read_key_loop_byte, read_stdin, World.after_read,
    char_of_byte_esc, char_of_byte_ascii char_signed '[' (by decide), if_true, hdv]
  have c0 : chr '0' = 48 := rfl
  have c9 : chr '9' = 57 := rfl
  have c5 : chr '5' = 53 := rfl
  have c6 : chr '6' = 54 := rfl
  have ct : chr '~' = 126 := rfl
  have hdig : (d.val : Int) ≥ 48 ∧ (d.val : Int) ≤ 57 := by omega
  rw [c0, c9, c5, c6, ct, if_pos hdig]
  simp only [hf, e5, e6, ef, PAGE_UP, PAGE_DOWN, ESCAPE_CHAR]
  split_ifs with h1 h2 h3
  · exact ⟨_, rfl, by omega, by omega, by omega⟩
  · exact ⟨_, rfl, by omega, by omega, by omega⟩
  · exact ⟨_, rfl, by omega, by omega, by omega⟩
  · exact ⟨_, rfl, by omega, by omega, by omega⟩


/-- An escape byte at the head of the input followed by a truncated sequence
decodes to the bare escape. -/
theorem editor_read_key_truncated (char_signed : Bool) (w : World) (tail : List ReadResult)
    (htail : no_byte_next tail ∨ (∃ a t, tail = .byte a :: t ∧ no_byte_next t) ∨
      (∃ d t, tail = .byte (ascii '[') :: .byte d :: t ∧ ascii '0' ≤ d ∧ d ≤ ascii '9' ∧
        no_byte_next t)) :
    ∃ w2, editor_read_key char_signed { w with input := .byte 0x1b :: tail } =
        .ret ESCAPE_CHAR w2 ∧ w2.writes = w.writes ∧ w2.perrors = w.perrors := by
  rcases htail with h | ⟨a, t, rfl, h⟩ | ⟨d, t, rfl, hd0, hd9, h⟩
  · rcases tail with _ | ⟨r, t⟩
    · simp [editor_read_key, editor_read_key_loop_byte, read_stdin, char_of_byte_esc]
    · cases r with
      | byte b => exact absurd h (by simp [no_byte_next])
      | timeout =>
        simp [editor_read_key, editor_read_key_loop_byte, read_stdin, World.after_read,
          char_of_byte_esc]
      | error e =>
        simp [editor_read_key, editor_read_key_loop_byte, read_stdin, World.after_read,
          char_of_byte_esc]
  · rcases t with _ | ⟨r, t⟩
    · simp [editor_read_key, editor_read_key_loop_byte, read_stdin, World.after_read,
        char_of_byte_esc]
    · cases r with
      | byte b => exact absurd h (by simp [no_byte_next])
      | timeout =>
        simp [editor_read_key, editor_read_key_loop_byte, read_stdin, World.after_read,
          char_of_byte_esc]
      | error e =>
        simp [editor_read_key, editor_read_key_loop_byte, read_stdin, World.after_read,
          char_of_byte_esc]
  · have h0 : 48 ≤ d.val := hd0
    have h9 : d.val ≤ 57 := hd9
    have hdv : char_of_byte char_signed d = (d.val : Int) :=
      char_of_byte_of_lt char_signed d (by omega)
    have hdig : (d.val : Int) ≥ chr '0' ∧ (d.val : Int) ≤ chr '9' := by
      have c0 : chr '0' = 48 := rfl
      have c9 : chr '9' = 57 := rfl
      omega
    rcases t with _ | ⟨r, t⟩
    · simp [editor_read_key, editor_read_key_loop_byte, read_stdin, World.after_read,
        char_of_byte_esc, char_of_byte_ascii, hdv, hdig]
    · cases r with
      | byte b => exact absurd h (by simp [no_byte_next])
      | timeout =>
        simp [editor_read_key, editor_read_key_loop_byte, read_stdin, World.after_read,
          char_of_byte_esc, char_of_byte_ascii, hdv, hdig]
      | error e =>
        simp [editor_read_key, editor_read_key_loop_byte, read_stdin, World.after_read,
          char_of_byte_esc, char_of_byte_ascii, hdv, hdig]

/-- C4 (truncated escape sequences are not errors).  Let the first byte
that `editor_read_key` obtains be 0x1B, after any number of reads that gave no
byte.  If the first follow-up read gives no byte, or the second does, or after
`[` and a digit the third does (a timeout, a failed read, or the end of the
pending input), then `editor_read_key` returns the bare escape 0x1B; it does not
leave through `die`: nothing is written and nothing is reported. -/
theorem C4_truncated_escape (char_signed : Bool) (w : World) (pre tail : List ReadResult)
    (hpre : ∀ r ∈ pre, r.ret ≠ 1)
    (htail : no_byte_next tail ∨ (∃ a t, tail = .byte a :: t ∧ no_byte_next t) ∨
      (∃ d t, tail = .byte (ascii '[') :: .byte d :: t ∧ ascii '0' ≤ d ∧ d ≤ ascii '9' ∧
        no_byte_next t)) :
    ∃ w2, editor_read_key char_signed { w with input := pre ++ .byte 0x1b :: tail } =
        .ret ESCAPE_CHAR w2 ∧ w2.writes = w.writes ∧ w2.perrors = w.perrors := by
  obtain ⟨e, he⟩ := editor_read_key_skip char_signed w pre (.byte 0x1b :: tail) hpre
  obtain ⟨w2, h2, hw, hp⟩ := editor_read_key_truncated char_signed { w with errno := e } tail htail
  exact ⟨w2, he.trans h2, hw, hp⟩

/-- Witness of C4: a timeout, then a lone 0x1B followed by a read timeout. -/
theorem C4_truncated_escape_witness :
    ∃ w2, editor_read_key true { input := [.timeout, .byte 0x1b, .timeout] } =
        .ret ESCAPE_CHAR w2 ∧ w2.writes = [] ∧ w2.perrors = [] :=
  C4_truncated_escape true {} [.timeout] [.timeout] (by decide) (Or.inl (by decide))

/-- C5 (fatal read errors), as the code behaves.  A first read that
fails, with any `errno`, is retried: `editor_read_key` goes on with the next read
exactly as it does after a timeout; no call of `editor_read_key` ever ends the
process; and after a read that fails with `EIO` (5) the next byte `a` is returned
as a key. -/
theorem C5_read_error_is_retried :
    (∀ (char_signed : Bool) (w : World) (e : Int) (rest : List ReadResult),
      editor_read_key char_signed { w with input := .error e :: rest } =
        editor_read_key char_signed { w with input := rest, errno := e }) ∧
    (∀ (char_signed : Bool) (w : World) (status : Int) (w2 : World),
      editor_read_key char_signed w ≠ .exited status w2) ∧
    editor_read_key true { input := [.error 5, .byte (ascii 'a')] } =
      .ret (chr 'a') { errno := 5 } := by
  refine ⟨?_, ?_, by decide⟩
  · intro cs w e rest
    simp only [editor_read_key]
    rw [editor_read_key_loop_skip _ _ _ _ (by simp [ReadResult.ret])]
    cases rest <;> rfl
  · intro cs w status w2
    unfold editor_read_key
    have hl := editor_read_key_loop_not_exited cs w w.input
    cases hk : editor_read_key_loop cs w w.input with
    | ret c w1 =>
      simp only
      split_ifs <;> (repeat' split) <;> simp
    | exited s w1 => exact absurd hk (hl s w1)
    | blocked => simp
    | undefined => simp

/-- Witness of C3: 0x1B `[` `9` `~` is consumed whole and yields a key that is
neither page key. -/
theorem C3_page_key_decoding_witness :
    ∃ k, editor_read_key true
          { input := [.byte 0x1b, .byte (ascii '['), .byte (ascii '9'), .byte (ascii '~')] } =
        .ret k { input := [] } ∧
      (k = PAGE_UP ↔ ascii '9' = ascii '5' ∧ ascii '~' = ascii '~') ∧
      (k = PAGE_DOWN ↔ ascii '9' = ascii '6' ∧ ascii '~' = ascii '~') ∧
      (¬ (ascii '9' = ascii '5' ∧ ascii '~' = ascii '~') →
        ¬ (ascii '9' = ascii '6' ∧ ascii '~' = ascii '~') → k = ESCAPE_CHAR) :=
  C3_page_key_decoding true {} (ascii '9') (ascii '~') [] ⟨by decide, by decide⟩

/-! ## The append buffer and the frame -/

theorem all_succeed_tail (ok : Bool) (allocs : List Bool) (h : all_succeed (ok :: allocs)) :
    ok = true ∧ all_succeed allocs :=
  ⟨h ok (List.mem_cons_self ok allocs), fun b hb => h b (List.mem_cons_of_mem _ hb)⟩

theorem appends_ab_append (s : List Char) (len : Nat) (hlen : len ≤ s.length) :
    Appends (ab_append s (len : Int)) (s.take len) := by
  intro ab allocs h
  have hl : ¬ ((len : Int) < 0 ∨ (s.length : Int) < (len : Int)) := by omega
  have hlen2 : ((s.take len).length : Int) = (len : Int) := by
    rw [List.length_take]; omega
  cases allocs with
  | nil =>
    refine ⟨[], ?_, h⟩
    simp [ab_append, next_alloc, hl, hlen]
  | cons ok rest =>
    obtain ⟨hok, hrest⟩ := all_succeed_tail ok rest h
    subst hok
    refine ⟨rest, ?_, hrest⟩
    simp [ab_append, next_alloc, hl, hlen]

theorem appends_some : Appends some [] := by
  intro ab allocs h
  exact ⟨allocs, by simp, h⟩

theorem appends_bind {f g : AppendBuffer × List Bool → Option (AppendBuffer × List Bool)}
    {a b : List Char} (hf : Appends f a) (hg : Appends g b) :
    Appends (fun st => (f st).bind g) (a ++ b) := by
  intro ab allocs h
  obtain ⟨al1, e1, h1⟩ := hf ab allocs h
  obtain ⟨al2, e2, h2⟩ := hg { buf := ab.buf ++ a, len := ab.len + a.length } al1 h1
  refine ⟨al2, ?_, h2⟩
  simp only [e1, Option.some_bind, e2]
  simp [add_assoc]

theorem snprintf_welcome_eq :
    snprintf_welcome 80 = ("Kilo editor -- version 0.0.1".toList, 28) := by
  decide

theorem pad_loop_succ (n : Nat) :
    pad_loop (n + 1) ((n + 1 : Nat) : Int) =
      fun st => (ab_append " ".toList ((1 : Nat) : Int) st).bind (pad_loop n (n : Int)) := by
  funext st
  have h : ((n + 1 : Nat) : Int) ≠ 0 := by omega
  have e : ((n + 1 : Nat) : Int) - 1 = (n : Int) := by omega
  simp only [pad_loop, h, ne_eq, not_false_eq_true, if_true, e]
  rfl

theorem appends_pad_loop (n : Nat) :
    Appends (pad_loop n (n : Int)) (List.replicate n ' ') := by
  induction n with
  | zero =>
    have e : pad_loop 0 ((0 : Nat) : Int) = some := by
      funext st
      simp [pad_loop]
    rw [e]
    exact appends_some
  | succ n ih =>
    rw [pad_loop_succ]
    exact appends_bind (appends_ab_append " ".toList 1 (by decide)) ih

/-- The banner branch of `draw_row_content` when the viewport has at least 30
columns: the glyph, `padding - 1` blanks, and the whole banner text. -/
theorem draw_row_content_wide (E : EditorConfig) (i : Int) (p : Nat)
    (hi : i = Int.tdiv E.screen_rows 3) (hp : ((p + 1 : Nat) : Int) = (E.screen_cols - 28) / 2) :
    draw_row_content E i = fun st =>
      (((ab_append "~".toList ((1 : Nat) : Int) st).bind (pad_loop p (p : Int))).bind
        (ab_append "Kilo editor -- version 0.0.1".toList ((28 : Nat) : Int))) := by
  funext st
  have hc : ¬ ((28 : Int) > E.screen_cols) := by omega
  have hpad : Int.tdiv (E.screen_cols - 28) 2 = ((p + 1 : Nat) : Int) := by
    rw [Int.tdiv_eq_ediv (by omega) (by decide)]
    exact hp.symm
  have h0 : ((p + 1 : Nat) : Int) ≠ 0 := by omega
  have e : ((p + 1 : Nat) : Int) - 1 = (p : Int) := by omega
  simp only [draw_row_content, hi, if_true, snprintf_welcome_eq, hc, if_false, hpad, h0, ne_eq,
    not_false_eq_true, e, Int.toNat_ofNat]
  rfl

/-- The banner branch of `draw_row_content` when the viewport has at most 29
columns: only the banner text, cut to the width of the viewport. -/
theorem draw_row_content_narrow (E : EditorConfig) (i : Int) (c : Nat)
    (hi : i = Int.tdiv E.screen_rows 3) (hc : E.screen_cols = (c : Int)) (hc29 : c ≤ 29) :
    draw_row_content E i = fun st =>
      ab_append "Kilo editor -- version 0.0.1".toList ((min c 28 : Nat) : Int) st := by
  funext st
  by_cases h28 : c < 28
  · have hgt : (28 : Int) > E.screen_cols := by omega
    have hm : min c 28 = c := by omega
    simp [draw_row_content, hi, snprintf_welcome_eq, pad_loop, hm, hc, h28]
  · have hgt : ¬ ((28 : Int) > E.screen_cols) := by omega
    have hm : min c 28 = 28 := by omega
    have hpad : Int.tdiv (E.screen_cols - 28) 2 = 0 := by
      rw [Int.tdiv_eq_ediv (by omega) (by decide)]
      omega
    simp [draw_row_content, hi, snprintf_welcome_eq, hgt, pad_loop, hm, hpad]

theorem draw_row_content_filler (E : EditorConfig) (i : Int)
    (hi : i ≠ Int.tdiv E.screen_rows 3) :
    draw_row_content E i = fun st => ab_append "~".toList ((1 : Nat) : Int) st := by
  funext st
  simp [draw_row_content, hi]

theorem at_most_ab_append (s : List Char) (len : Nat) (hlen : len ≤ s.length) :
    AppendsAtMost (ab_append s (len : Int)) len := by
  intro ab allocs
  have hl : ¬ ((len : Int) < 0 ∨ (s.length : Int) < (len : Int)) := by omega
  cases allocs with
  | nil =>
    refine ⟨s.take len, [], ?_, by simp⟩
    simp [ab_append, next_alloc, hl, hlen]
  | cons ok rest =>
    cases ok with
    | false =>
      refine ⟨[], rest, ?_, by simp⟩
      simp [ab_append, next_alloc]
    | true =>
      refine ⟨s.take len, rest, ?_, by simp⟩
      simp [ab_append, next_alloc, hl, hlen]

theorem at_most_some : AppendsAtMost some 0 := by
  intro ab allocs
  exact ⟨[], allocs, by simp, by simp⟩

theorem at_most_bind {f g : AppendBuffer × List Bool → Option (AppendBuffer × List Bool)}
    {j k : Nat} (hf : AppendsAtMost f j) (hg : AppendsAtMost g k) :
    AppendsAtMost (fun st => (f st).bind g) (j + k) := by
  intro ab allocs
  obtain ⟨o1, al1, e1, h1⟩ := hf ab allocs
  obtain ⟨o2, al2, e2, h2⟩ := hg { buf := ab.buf ++ o1, len := ab.len + o1.length } al1
  refine ⟨o1 ++ o2, al2, ?_, by simp; omega⟩
  simp only [e1, Option.some_bind, e2]
  simp [add_assoc]

theorem at_most_pad_loop (n : Nat) : AppendsAtMost (pad_loop n (n : Int)) n := by
  induction n with
  | zero =>
    have e : pad_loop 0 ((0 : Nat) : Int) = some := by
      funext st
      simp [pad_loop]
    rw [e]
    exact at_most_some
  | succ n ih =>
    rw [pad_loop_succ, Nat.add_comm n 1]
    exact at_most_bind (at_most_ab_append " ".toList 1 (by decide)) ih

/-- Content of the banner row, whatever the outcomes of `realloc`: never more
bytes than the viewport has columns. -/
theorem at_most_banner (E : EditorConfig) (c : Nat) (hc : E.screen_cols = (c : Int)) :
    AppendsAtMost (draw_row_content E (Int.tdiv E.screen_rows 3)) c := by
  by_cases h29 : c ≤ 29
  · rw [draw_row_content_narrow E _ c rfl hc h29]
    intro ab allocs
    obtain ⟨out, al, e, h⟩ :=
      at_most_ab_append "Kilo editor -- version 0.0.1".toList (min c 28)
        (by simp [Nat.min_def]; split_ifs <;> omega) ab allocs
    exact ⟨out, al, e, by omega⟩
  · obtain ⟨p, hp⟩ : ∃ p : Nat, ((p + 1 : Nat) : Int) = (E.screen_cols - 28) / 2 :=
      ⟨((E.screen_cols - 28) / 2 - 1).toNat, by omega⟩
    rw [draw_row_content_wide E _ p rfl hp]
    intro ab allocs
    obtain ⟨out, al, e, h⟩ :=
      at_most_bind (at_most_bind (at_most_ab_append "~".toList 1 (by decide)) (at_most_pad_loop p))
        (at_most_ab_append "Kilo editor -- version 0.0.1".toList 28 (by decide)) ab allocs
    exact ⟨out, al, e, by omega⟩

theorem draw_row_eq (E : EditorConfig) (i : Int) :
    draw_row E i = fun st =>
      ((draw_row_content E i st).bind (ab_append "\x1b[K".toList ((3 : Nat) : Int))).bind
        (if i < E.screen_rows - 1 then ab_append "\r\n".toList ((2 : Nat) : Int) else some) := by
  funext st
  unfold draw_row
  split_ifs <;> rfl

theorem draw_rows_loop_succ (E : EditorConfig) (n : Nat) (i : Int) (hi : i < E.screen_rows) :
    draw_rows_loop E (n + 1) i = fun st => (draw_row E i st).bind (draw_rows_loop E n (i + 1)) := by
  funext st
  simp [draw_rows_loop, hi]

theorem draw_rows_loop_done (E : EditorConfig) (n : Nat) (i : Int)
    (hi : n = 0 ∨ ¬ i < E.screen_rows) : draw_rows_loop E n i = some := by
  funext st
  cases n with
  | zero => rfl
  | succ n =>
    rcases hi with h | h
    · cases h
    · simp [draw_rows_loop, h]

theorem appends_line_break (E : EditorConfig) (i : Int) :
    ∃ out, Appends (if i < E.screen_rows - 1 then ab_append "\r\n".toList ((2 : Nat) : Int)
      else some) out := by
  split_ifs
  · exact ⟨_, appends_ab_append "\r\n".toList 2 (by decide)⟩
  · exact ⟨_, appends_some⟩

theorem appends_draw_row_content (E : EditorConfig) (c : Nat) (hc : E.screen_cols = (c : Int))
    (i : Int) : ∃ out, Appends (draw_row_content E i) out := by
  by_cases hi : i = Int.tdiv E.screen_rows 3
  · by_cases h29 : c ≤ 29
    · rw [draw_row_content_narrow E i c hi hc h29]
      exact ⟨_, appends_ab_append _ (min c 28) (by simp [Nat.min_def]; split_ifs <;> omega)⟩
    · obtain ⟨p, hp⟩ : ∃ p : Nat, ((p + 1 : Nat) : Int) = (E.screen_cols - 28) / 2 :=
        ⟨((E.screen_cols - 28) / 2 - 1).toNat, by omega⟩
      rw [draw_row_content_wide E i p hi hp]
      exact ⟨_, appends_bind
        (appends_bind (appends_ab_append "~".toList 1 (by decide)) (appends_pad_loop p))
        (appends_ab_append "Kilo editor -- version 0.0.1".toList 28 (by decide))⟩
  · rw [draw_row_content_filler E i hi]
    exact ⟨_, appends_ab_append "~".toList 1 (by decide)⟩

theorem appends_draw_row (E : EditorConfig) (c : Nat) (hc : E.screen_cols = (c : Int))
    (i : Int) : ∃ out, Appends (draw_row E i) out := by
  obtain ⟨o1, h1⟩ := appends_draw_row_content E c hc i
  obtain ⟨o2, h2⟩ := appends_line_break E i
  rw [draw_row_eq]
  exact ⟨_, appends_bind (appends_bind h1 (appends_ab_append "\x1b[K".toList 3 (by decide))) h2⟩

theorem appends_draw_rows_loop (E : EditorConfig) (c : Nat) (hc : E.screen_cols = (c : Int))
    (n : Nat) (i : Int) : ∃ out, Appends (draw_rows_loop E n i) out := by
  induction n generalizing i with
  | zero =>
    rw [draw_rows_loop_done E 0 i (Or.inl rfl)]
    exact ⟨_, appends_some⟩
  | succ n ih =>
    by_cases hi : i < E.screen_rows
    · rw [draw_rows_loop_succ E n i hi]
      obtain ⟨o1, h1⟩ := appends_draw_row E c hc i
      obtain ⟨o2, h2⟩ := ih (i + 1)
      exact ⟨_, appends_bind h1 h2⟩
    · rw [draw_rows_loop_done E _ i (Or.inr hi)]
      exact ⟨_, appends_some⟩

/-- When every `realloc` call succeeds, `editor_draw_rows` appends to the
buffer a byte sequence that depends on the geometry alone. -/
theorem appends_editor_draw_rows (E : EditorConfig)
    (h : 0 ≤ E.screen_cols ∨ E.screen_rows ≤ 0) :
    ∃ out, Appends (editor_draw_rows E) out := by
  have e : editor_draw_rows E = draw_rows_loop E E.screen_rows.toNat 0 := rfl
  rw [e]
  rcases h with h | h
  · exact appends_draw_rows_loop E E.screen_cols.toNat (by omega) _ 0
  · rw [draw_rows_loop_done E _ 0 (Or.inr (by omega))]
    exact ⟨_, appends_some⟩

theorem decimal_digits_length_le (fuel n k : Nat) (hk : 1 ≤ k) (hn : n < 10 ^ k) :
    (decimal_digits fuel n).length ≤ k := by
  induction fuel generalizing n k with
  | zero => simp [decimal_digits]
  | succ fuel ih =>
    unfold decimal_digits
    split_ifs with h10
    · simpa using hk
    · obtain ⟨j, rfl⟩ : ∃ j, k = j + 1 := ⟨k - 1, by omega⟩
      have hj : 1 ≤ j := by
        rcases Nat.eq_zero_or_pos j with h0 | h0
        · subst h0
          simp at hn
          omega
        · exact h0
      have hdiv : n / 10 < 10 ^ j := by
        rw [Nat.div_lt_iff_lt_mul (by decide)]
        rw [pow_succ] at hn
        exact hn
      have := ih (n / 10) j hj hdiv
      simp
      omega

theorem fmt_d_length_le (x : Int) (hlo : INT_MIN ≤ x) (hhi : x ≤ INT_MAX) :
    (fmt_d x).length ≤ 11 := by
  unfold INT_MIN at hlo
  unfold INT_MAX at hhi
  have hn : x.natAbs < 10 ^ 10 := by
    have : (10 : Nat) ^ 10 = 10000000000 := by norm_num
    omega
  have := decimal_digits_length_le (x.natAbs + 1) x.natAbs 10 (by decide) hn
  unfold fmt_d
  split_ifs
  · simp
    omega
  · omega

/-- The 32 bytes of `buf` hold the whole cursor-positioning sequence when the
two numbers are values of a 32-bit `int`. -/
theorem snprintf_cursor_eq (row col : Int) (hr : INT_MIN ≤ row ∧ row ≤ INT_MAX)
    (hc : INT_MIN ≤ col ∧ col ≤ INT_MAX) :
    snprintf_cursor 32 row col =
      "\x1b[".toList ++ fmt_d row ++ ";".toList ++ fmt_d col ++ "H".toList := by
  unfold snprintf_cursor
  apply List.take_of_length_le
  have h1 := fmt_d_length_le row hr.1 hr.2
  have h2 := fmt_d_length_le col hc.1 hc.2
  simp
  omega

/-- The buffer operations of `editor_refresh_screen`, in the order of the
calls: the two writes of `clear_screen` and `reposition_cursor` in between do
not touch the buffer. -/
theorem editor_refresh_screen_eq (E : EditorConfig) (w : World) :
    editor_refresh_screen E w =
      match ((((ab_append "\x1b[?25l".toList 6 (ab_init, w.allocs)).bind
          (ab_append "\x1b[H".toList 3)).bind (editor_draw_rows E)).bind
          (ab_append (snprintf_cursor 32 (E.c_y + 1) (E.c_x + 1))
            ((snprintf_cursor 32 (E.c_y + 1) (E.c_x + 1)).length : Int))).bind
          (ab_append "\x1b[?25h".toList 6) with
      | none => .undefined
      | some (ab, allocs) =>
        .ret () (sys_write STDOUT_FILENO (ab.buf.take ab.len.toNat)
          (reposition_cursor (clear_screen { w with allocs := allocs }))) := by
  simp only [editor_refresh_screen]
  cases h1 : (ab_append "\x1b[?25l".toList 6 (ab_init, w.allocs)).bind
      (ab_append "\x1b[H".toList 3) with
  | none => simp only [Option.none_bind]
  | some st1 =>
    obtain ⟨ab1, al1⟩ := st1
    simp only [Option.some_bind]
    have e1 : (reposition_cursor (clear_screen { w with allocs := al1 })).allocs = al1 := rfl
    rw [e1]
    cases h2 : editor_draw_rows E (ab1, al1) with
    | none => simp only [Option.none_bind]
    | some st2 =>
      obtain ⟨ab2, al2⟩ := st2
      simp only [Option.some_bind]
      cases h3 : ab_append (snprintf_cursor 32 (E.c_y + 1) (E.c_x + 1))
          ((snprintf_cursor 32 (E.c_y + 1) (E.c_x + 1)).length : Int) (ab2, al2) with
      | none => simp only [Option.none_bind]
      | some st3 =>
        obtain ⟨ab3, al3⟩ := st3
        simp only [Option.some_bind]
        cases h4 : ab_append "\x1b[?25h".toList 6 (ab3, al3) with
        | none => rfl
        | some st4 => rfl

/-- The conversion `%d` on a few values, among them the extreme values of a
32-bit `int`. -/
theorem fmt_d_examples :
    fmt_d 0 = "0".toList ∧ fmt_d 7 = "7".toList ∧ fmt_d 25 = "25".toList ∧
    fmt_d 1000 = "1000".toList ∧ fmt_d (-42) = "-42".toList ∧
    fmt_d INT_MAX = "2147483647".toList ∧ fmt_d INT_MIN = "-2147483648".toList := by
  refine ⟨by decide, by decide, by decide, ?_, by decide, ?_, ?_⟩ <;>
  (simp [fmt_d, decimal_digits, INT_MAX, INT_MIN]; decide)

/-- The buffer operations of `editor_refresh_screen` append the five parts of
the frame in order when every `realloc` call succeeds. -/
theorem appends_frame (E : EditorConfig) (h : 0 ≤ E.screen_cols ∨ E.screen_rows ≤ 0) :
    ∃ rows, Appends (editor_draw_rows E) rows ∧
      Appends (fun st => ((((ab_append "\x1b[?25l".toList 6 st).bind
          (ab_append "\x1b[H".toList 3)).bind (editor_draw_rows E)).bind
          (ab_append (snprintf_cursor 32 (E.c_y + 1) (E.c_x + 1))
            ((snprintf_cursor 32 (E.c_y + 1) (E.c_x + 1)).length : Int))).bind
          (ab_append "\x1b[?25h".toList 6))
        ("\x1b[?25l".toList ++ "\x1b[H".toList ++ rows ++
          snprintf_cursor 32 (E.c_y + 1) (E.c_x + 1) ++ "\x1b[?25h".toList) := by
  obtain ⟨rows, hrows⟩ := appends_editor_draw_rows E h
  refine ⟨rows, hrows, ?_⟩
  have h1 := appends_ab_append "\x1b[?25l".toList 6 (by decide)
  have h2 := appends_ab_append "\x1b[H".toList 3 (by decide)
  have h4 := appends_ab_append (snprintf_cursor 32 (E.c_y + 1) (E.c_x + 1))
    (snprintf_cursor 32 (E.c_y + 1) (E.c_x + 1)).length (le_refl _)
  have h5 := appends_ab_append "\x1b[?25h".toList 6 (by decide)
  rw [List.take_length] at h4
  exact appends_bind (appends_bind (appends_bind (appends_bind h1 h2) hrows) h4) h5

/-- C7 (frame byte sequence).  Let every `realloc` call succeed, let the
geometry have no negative width to draw, and let the cursor coordinates and
their successors be values of a 32-bit `int`.  Then `editor_draw_rows` has an
output `rows`, and the buffer that `editor_refresh_screen` writes on
`STDOUT_FILENO` is, in this order, the hide-cursor sequence, the cursor-home
sequence, `rows`, the positioning sequence 0x1B `[` decimal of `c_y + 1` `;`
decimal of `c_x + 1` `H`, and the show-cursor sequence. -/
theorem C7_frame_byte_sequence (E : EditorConfig) (w : World)
    (hgeo : 0 ≤ E.screen_cols ∨ E.screen_rows ≤ 0) (halloc : all_succeed w.allocs)
    (hx : INT_MIN ≤ E.c_x ∧ E.c_x < INT_MAX) (hy : INT_MIN ≤ E.c_y ∧ E.c_y < INT_MAX) :
    ∃ rows allocs2 w2,
      editor_draw_rows E (ab_init, []) = some ({ buf := rows, len := rows.length }, allocs2) ∧
      editor_refresh_screen E w = .ret () w2 ∧
      w2.writes = w.writes ++ [(STDIN_FILENO, "\x1b[2j".toList),
        (STDIN_FILENO, "\x1b[H".toList),
        (STDOUT_FILENO, "\x1b[?25l".toList ++ "\x1b[H".toList ++ rows ++
          ("\x1b[".toList ++ fmt_d (E.c_y + 1) ++ ";".toList ++ fmt_d (E.c_x + 1) ++ "H".toList) ++
          "\x1b[?25h".toList)] := by
  obtain ⟨rows, hrows, hframe⟩ := appends_frame E hgeo
  obtain ⟨al0, e0, -⟩ := hrows ab_init [] (by intro b hb; cases hb)
  obtain ⟨al, e, -⟩ := hframe ab_init w.allocs halloc
  have hcur := snprintf_cursor_eq (E.c_y + 1) (E.c_x + 1)
    (by unfold INT_MIN INT_MAX at *; omega) (by unfold INT_MIN INT_MAX at *; omega)
  simp only at e
  rw [hcur] at e
  refine ⟨rows, al0, sys_write STDOUT_FILENO ("\x1b[?25l".toList ++ "\x1b[H".toList ++ rows ++
      ("\x1b[".toList ++ fmt_d (E.c_y + 1) ++ ";".toList ++ fmt_d (E.c_x + 1) ++ "H".toList) ++
      "\x1b[?25h".toList) (reposition_cursor (clear_screen { w with allocs := al })), ?_, ?_, ?_⟩
  · rw [e0]
    simp [ab_init]
  · rw [editor_refresh_screen_eq, hcur, e]
    simp only [ab_init, zero_add, Int.toNat_ofNat, List.nil_append, List.take_length]
  · simp [sys_write, reposition_cursor, clear_screen]

/-- Witness of C7: a viewport of 2 rows and 3 columns with the cursor on
column 2 of row 1. -/
theorem C7_frame_byte_sequence_witness :
    ∃ rows allocs2 w2,
      editor_draw_rows { screen_rows := 2, screen_cols := 3, c_x := 2, c_y := 1 } (ab_init, []) =
        some ({ buf := rows, len := rows.length }, allocs2) ∧
      editor_refresh_screen { screen_rows := 2, screen_cols := 3, c_x := 2, c_y := 1 } {} =
        .ret () w2 ∧
      w2.writes = [] ++ [(STDIN_FILENO, "\x1b[2j".toList),
        (STDIN_FILENO, "\x1b[H".toList),
        (STDOUT_FILENO, "\x1b[?25l".toList ++ "\x1b[H".toList ++ rows ++
          ("\x1b[".toList ++ fmt_d (1 + 1) ++ ";".toList ++ fmt_d (2 + 1) ++ "H".toList) ++
          "\x1b[?25h".toList)] :=
  C7_frame_byte_sequence { screen_rows := 2, screen_cols := 3, c_x := 2, c_y := 1 } {}
    (Or.inl (by decide)) (by decide) (by decide) (by decide)

/-- Counterexample to C9 as stated.  In a viewport of 3 rows and 20 columns the
content of the banner row (row 1) is `Kilo editor -- versi`: it begins with `K`,
and no `~` is drawn in front of it. -/
theorem C9_banner_glyph_counterexample :
    (1 : Int) ≤ 3 ∧ (1 : Int) ≤ 20 ∧
    draw_row_content { screen_rows := 3, screen_cols := 20 } (Int.tdiv 3 3) (ab_init, []) =
      some ({ buf := "Kilo editor -- versi".toList, len := 20 }, []) ∧
    ¬ ∃ rest len allocs2,
      draw_row_content { screen_rows := 3, screen_cols := 20 } (Int.tdiv 3 3) (ab_init, []) =
        some ({ buf := '~' :: rest, len := len }, allocs2) := by
  have e : draw_row_content { screen_rows := 3, screen_cols := 20 } (Int.tdiv 3 3)
      (ab_init, []) = some ({ buf := "Kilo editor -- versi".toList, len := 20 }, []) := by
    decide
  refine ⟨by decide, by decide, e, ?_⟩
  rintro ⟨rest, len, al, h⟩
  rw [e] at h
  simp at h

/-- C9 (glyph in front of the banner), amended.  In a viewport of at least one
column, every `realloc` call succeeding: when `screen_cols >= 30` the content
drawn on the banner row begins with exactly one `~`, and what follows it (the
blanks and the banner text) holds no `~`; when `screen_cols <= 29` the guard
`if (padding)` skips the glyph, and the content is the banner text cut to
`screen_cols` characters, with no `~` at all. -/
theorem C9_banner_glyph (E : EditorConfig) (hcols : 1 ≤ E.screen_cols) :
    (30 ≤ E.screen_cols → ∀ ab allocs, all_succeed allocs → ∃ rest allocs2,
      draw_row_content E (Int.tdiv E.screen_rows 3) (ab, allocs) =
        some ({ buf := ab.buf ++ '~' :: rest, len := ab.len + (1 + rest.length) }, allocs2) ∧
      '~' ∉ rest) ∧
    (E.screen_cols ≤ 29 → ∀ ab allocs, all_succeed allocs → ∃ allocs2,
      draw_row_content E (Int.tdiv E.screen_rows 3) (ab, allocs) =
        some ({ buf := ab.buf ++ "Kilo editor -- version 0.0.1".toList.take E.screen_cols.toNat,
                len := ab.len + min E.screen_cols 28 }, allocs2) ∧
      '~' ∉ "Kilo editor -- version 0.0.1".toList.take E.screen_cols.toNat) := by
  constructor
  · intro h30 ab allocs hal
    obtain ⟨p, hp⟩ : ∃ p : Nat, ((p + 1 : Nat) : Int) = (E.screen_cols - 28) / 2 :=
      ⟨((E.screen_cols - 28) / 2 - 1).toNat, by omega⟩
    have happ : Appends (draw_row_content E (Int.tdiv E.screen_rows 3))
        (List.take 1 "~".toList ++ List.replicate p ' ' ++
          List.take 28 "Kilo editor -- version 0.0.1".toList) := by
      rw [draw_row_content_wide E _ p rfl hp]
      exact appends_bind
        (appends_bind (appends_ab_append "~".toList 1 (by decide)) (appends_pad_loop p))
        (appends_ab_append "Kilo editor -- version 0.0.1".toList 28 (by decide))
    obtain ⟨al, e, -⟩ := happ ab allocs hal
    refine ⟨List.replicate p ' ' ++ "Kilo editor -- version 0.0.1".toList, al, ?_, ?_⟩
    · rw [e]
      simp
      omega
    · simp [List.mem_replicate]
  · intro h29 ab allocs hal
    obtain ⟨c, hc⟩ : ∃ c : Nat, E.screen_cols = (c : Int) := ⟨E.screen_cols.toNat, by omega⟩
    have hc29 : c ≤ 29 := by omega
    have happ : Appends (draw_row_content E (Int.tdiv E.screen_rows 3))
        (List.take (min c 28) "Kilo editor -- version 0.0.1".toList) := by
      rw [draw_row_content_narrow E _ c rfl hc hc29]
      exact appends_ab_append _ (min c 28) (by simp [Nat.min_def]; split_ifs <;> omega)
    obtain ⟨al, e, -⟩ := happ ab allocs hal
    have htake : List.take (min c 28) "Kilo editor -- version 0.0.1".toList =
        List.take c "Kilo editor -- version 0.0.1".toList := by
      rcases Nat.lt_or_ge c 28 with h | h
      · rw [Nat.min_eq_left (by omega)]
      · have hlen : "Kilo editor -- version 0.0.1".toList.length = 28 := by decide
        rw [Nat.min_eq_right h, List.take_of_length_le (by omega),
          List.take_of_length_le (by omega)]
    refine ⟨al, ?_, ?_⟩
    · rw [e, htake, hc]
      have hmin : ((List.take c "Kilo editor -- version 0.0.1".toList).length : Int) =
          min (c : Int) 28 := by
        have hlen : "Kilo editor -- version 0.0.1".toList.length = 28 := by decide
        rw [List.length_take, hlen]
        omega
      rw [hmin]
      simp
    · rw [hc]
      intro hmem
      have := List.mem_of_mem_take hmem
      simp at this

/-- Witness of C9: a viewport of 3 rows and 40 columns. -/
theorem C9_banner_glyph_witness :
    ∃ rest allocs2,
      draw_row_content { screen_rows := 3, screen_cols := 40 } (Int.tdiv 3 3) (ab_init, []) =
        some ({ buf := [] ++ '~' :: rest, len := 0 + (1 + rest.length) }, allocs2) ∧
      '~' ∉ rest :=
  (C9_banner_glyph { screen_rows := 3, screen_cols := 40 } (by decide)).1 (by decide)
    ab_init [] (by decide)

/-- C10 (banner width clamp).  In a viewport of at least one column the content
drawn on the banner row, the glyph, the blanks and the banner text together, has
at most `screen_cols` characters, whatever the outcomes of `realloc`; and when
`screen_cols < 28` and every `realloc` call succeeds, that content is exactly the
first `screen_cols` characters of `Kilo editor -- version 0.0.1`. -/
theorem C10_banner_width_clamp (E : EditorConfig) (hcols : 1 ≤ E.screen_cols) :
    (∀ ab allocs, ∃ content allocs2,
      draw_row_content E (Int.tdiv E.screen_rows 3) (ab, allocs) =
        some ({ buf := ab.buf ++ content, len := ab.len + content.length }, allocs2) ∧
      (content.length : Int) ≤ E.screen_cols) ∧
    (E.screen_cols < 28 → ∀ ab allocs, all_succeed allocs → ∃ allocs2,
      draw_row_content E (Int.tdiv E.screen_rows 3) (ab, allocs) =
        some ({ buf := ab.buf ++ "Kilo editor -- version 0.0.1".toList.take E.screen_cols.toNat,
                len := ab.len + E.screen_cols }, allocs2) ∧
      ("Kilo editor -- version 0.0.1".toList.take E.screen_cols.toNat).length =
        E.screen_cols.toNat) := by
  obtain ⟨c, hc⟩ : ∃ c : Nat, E.screen_cols = (c : Int) := ⟨E.screen_cols.toNat, by omega⟩
  constructor
  · intro ab allocs
    obtain ⟨out, al, e, h⟩ := at_most_banner E c hc ab allocs
    exact ⟨out, al, e, by omega⟩
  · intro h28 ab allocs hal
    have hc28 : c < 28 := by omega
    have happ : Appends (draw_row_content E (Int.tdiv E.screen_rows 3))
        (List.take (min c 28) "Kilo editor -- version 0.0.1".toList) := by
      rw [draw_row_content_narrow E _ c rfl hc (by omega)]
      exact appends_ab_append _ (min c 28) (by simp [Nat.min_def]; split_ifs <;> omega)
    obtain ⟨al, e, -⟩ := happ ab allocs hal
    rw [Nat.min_eq_left (by omega)] at e
    refine ⟨al, ?_, ?_⟩
    · rw [e, hc]
      simp [List.length_take]
      omega
    · rw [hc]
      simp [List.length_take]
      omega

/-- Witness of C10: a viewport of 3 rows and 10 columns, in which the first
`realloc` call fails. -/
theorem C10_banner_width_clamp_witness :
    ∃ content allocs2,
      draw_row_content { screen_rows := 3, screen_cols := 10 } (Int.tdiv 3 3)
          (ab_init, [false]) =
        some ({ buf := [] ++ content, len := 0 + content.length }, allocs2) ∧
      (content.length : Int) ≤ 10 :=
  (C10_banner_width_clamp { screen_rows := 3, screen_cols := 10 } (by decide)).1 ab_init [false]

/-! ## Single steps and page moves -/

theorem repeated_steps_geometry (key : Int) (n : Nat) (E : EditorConfig) :
    (repeated_steps key n E).screen_rows = E.screen_rows ∧
    (repeated_steps key n E).screen_cols = E.screen_cols := by
  induction n generalizing E with
  | zero => simp [repeated_steps]
  | succ n ih =>
    obtain ⟨h1, h2⟩ := ih (editor_move_cursor key E)
    obtain ⟨g1, g2⟩ := editor_move_cursor_geometry key E
    exact ⟨h1.trans g1, h2.trans g2⟩

/-- The loop of the page keys makes as many single steps as it has iterations
left. -/
theorem page_loop_eq_repeated_steps (c : Int) (n : Nat) (i : Int) (E : EditorConfig)
    (h : i + (n : Int) ≤ E.screen_rows) :
    page_loop c n i E =
      repeated_steps (if c = PAGE_UP then ARROW_UP else ARROW_DOWN) n E := by
  induction n generalizing i E with
  | zero => rfl
  | succ n ih =>
    have hi : i < E.screen_rows := by omega
    rw [page_loop, if_pos hi, repeated_steps]
    apply ih
    rw [(editor_move_cursor_geometry _ E).1]
    omega

theorem repeated_steps_up (n : Nat) (E : EditorConfig) (h : 0 ≤ E.c_y) :
    repeated_steps ARROW_UP n E = { E with c_y := max (E.c_y - (n : Int)) 0 } := by
  induction n generalizing E with
  | zero =>
    simp only [repeated_steps]
    cases E
    simp at h ⊢
    omega
  | succ n ih =>
    simp only [repeated_steps]
    by_cases hy : E.c_y > 0
    · have e : editor_move_cursor ARROW_UP E = { E with c_y := E.c_y - 1 } := by
        simp [editor_move_cursor, ARROW_UP, ARROW_LEFT, ARROW_RIGHT, hy]
      rw [e, ih _ (by simp; omega)]
      cases E
      simp at hy ⊢
      omega
    · have e : editor_move_cursor ARROW_UP E = E := by
        simp [editor_move_cursor, ARROW_UP, ARROW_LEFT, ARROW_RIGHT, hy]
      rw [e, ih _ h]
      cases E
      simp at hy h ⊢
      omega

theorem repeated_steps_down (n : Nat) (E : EditorConfig) (h : E.c_y ≤ E.screen_rows - 1) :
    repeated_steps ARROW_DOWN n E =
      { E with c_y := min (E.c_y + (n : Int)) (E.screen_rows - 1) } := by
  induction n generalizing E with
  | zero =>
    simp only [repeated_steps]
    cases E
    simp at h ⊢
    omega
  | succ n ih =>
    simp only [repeated_steps]
    by_cases hy : E.c_y < E.screen_rows - 1
    · have e : editor_move_cursor ARROW_DOWN E = { E with c_y := E.c_y + 1 } := by
        simp [editor_move_cursor, ARROW_DOWN, ARROW_UP, ARROW_LEFT, ARROW_RIGHT, hy]
      rw [e, ih _ (by simp; omega)]
      cases E
      simp at hy ⊢
      omega
    · have e : editor_move_cursor ARROW_DOWN E = E := by
        simp [editor_move_cursor, ARROW_DOWN, ARROW_UP, ARROW_LEFT, ARROW_RIGHT, hy]
      rw [e, ih _ h]
      cases E
      simp at hy h ⊢
      omega

/-- C12 (page move equals repeated steps).  For every state, whatever the
geometry and the cursor, dispatching one `PAGE_UP` (one `PAGE_DOWN`) key event
through the `switch` of `editor_process_keypress` returns exactly the state that
`screen_rows` successive calls `editor_move_cursor(ARROW_UP)` (`ARROW_DOWN`)
give, with the world untouched.  When the cursor is inside the viewport the
clamp is hit before the steps are used up: both sides end on row 0, or on row
`screen_rows - 1`. -/
theorem C12_page_move_is_repeated_steps (E : EditorConfig) (w : World) :
    editor_process_key PAGE_UP E w =
      .ret (repeated_steps ARROW_UP E.screen_rows.toNat E) w ∧
    editor_process_key PAGE_DOWN E w =
      .ret (repeated_steps ARROW_DOWN E.screen_rows.toNat E) w ∧
    (cursor_in_bounds E →
      repeated_steps ARROW_UP E.screen_rows.toNat E = { E with c_y := 0 } ∧
      repeated_steps ARROW_DOWN E.screen_rows.toNat E = { E with c_y := E.screen_rows - 1 }) := by
  have hup : page_loop PAGE_UP E.screen_rows.toNat 0 E =
      repeated_steps ARROW_UP E.screen_rows.toNat E := by
    rcases le_or_lt 0 E.screen_rows with h | h
    · have := page_loop_eq_repeated_steps PAGE_UP E.screen_rows.toNat 0 E (by omega)
      simpa using this
    · have e : E.screen_rows.toNat = 0 := by omega
      rw [e]
      rfl
  have hdown : page_loop PAGE_DOWN E.screen_rows.toNat 0 E =
      repeated_steps ARROW_DOWN E.screen_rows.toNat E := by
    rcases le_or_lt 0 E.screen_rows with h | h
    · have := page_loop_eq_repeated_steps PAGE_DOWN E.screen_rows.toNat 0 E (by omega)
      simpa [PAGE_DOWN, PAGE_UP] using this
    · have e : E.screen_rows.toNat = 0 := by omega
      rw [e]
      rfl
  refine ⟨?_, ?_, ?_⟩
  · rw [← hup]
    simp [editor_process_key, PAGE_UP, CTRL_KEY, chr, ARROW_LEFT, ARROW_RIGHT, ARROW_UP,
      ARROW_DOWN]
  · rw [← hdown]
    simp [editor_process_key, PAGE_UP, PAGE_DOWN, CTRL_KEY, chr, ARROW_LEFT, ARROW_RIGHT,
      ARROW_UP, ARROW_DOWN]
  · intro hin
    obtain ⟨hx0, hx1, hy0, hy1⟩ := hin
    rw [repeated_steps_up _ E hy0, repeated_steps_down _ E hy1]
    constructor
    · congr 1
      omega
    · congr 1
      omega

/-- C13 (saturating step).  In a viewport of at least one row and one column
and for a cursor inside it, `editor_move_cursor` returns, for the four arrows,
the state with `c_x` replaced by `max (c_x - 1) 0` (left) or by
`min (c_x + 1) (screen_cols - 1)` (right), or with `c_y` replaced by
`max (c_y - 1) 0` (up) or by `min (c_y + 1) (screen_rows - 1)` (down), the other
axis and the geometry being as before; for every key that is none of the four
arrows it returns the state unchanged.  The function is total: it never
fails. -/
theorem C13_saturating_step (E : EditorConfig) (hrows : 1 ≤ E.screen_rows)
    (hcols : 1 ≤ E.screen_cols) (hin : cursor_in_bounds E) :
    editor_move_cursor ARROW_LEFT E = { E with c_x := max (E.c_x - 1) 0 } ∧
    editor_move_cursor ARROW_RIGHT E = { E with c_x := min (E.c_x + 1) (E.screen_cols - 1) } ∧
    editor_move_cursor ARROW_UP E = { E with c_y := max (E.c_y - 1) 0 } ∧
    editor_move_cursor ARROW_DOWN E = { E with c_y := min (E.c_y + 1) (E.screen_rows - 1) } ∧
    (∀ key, key ≠ ARROW_LEFT → key ≠ ARROW_RIGHT → key ≠ ARROW_UP → key ≠ ARROW_DOWN →
      editor_move_cursor key E = E) := by
  obtain ⟨hx0, hx1, hy0, hy1⟩ := hin
  refine ⟨?_, ?_, ?_, ?_, ?_⟩
  · simp only [editor_move_cursor, if_true]
    split_ifs
    · congr 1; omega
    · cases E; simp at *; omega
  · simp only [editor_move_cursor, ARROW_RIGHT, ARROW_LEFT]
    simp only [show ¬ ((1001 : Int) = 1000) by decide, if_false, if_true]
    split_ifs
    · congr 1; omega
    · cases E; simp at *; omega
  · simp only [editor_move_cursor, ARROW_UP, ARROW_RIGHT, ARROW_LEFT]
    simp only [show ¬ ((1002 : Int) = 1000) by decide, show ¬ ((1002 : Int) = 1001) by decide,
      if_false, if_true]
    split_ifs
    · congr 1; omega
    · cases E; simp at *; omega
  · simp only [editor_move_cursor, ARROW_DOWN, ARROW_UP, ARROW_RIGHT, ARROW_LEFT]
    simp only [show ¬ ((1003 : Int) = 1000) by decide, show ¬ ((1003 : Int) = 1001) by decide,
      show ¬ ((1003 : Int) = 1002) by decide, if_false, if_true]
    split_ifs
    · congr 1; omega
    · cases E; simp at *; omega
  · intro key h1 h2 h3 h4
    simp [editor_move_cursor, h1, h2, h3, h4]

/-- Witness of C13: a 24 by 80 viewport with the cursor in its bottom right
corner. -/
theorem C13_saturating_step_witness :
    editor_move_cursor ARROW_LEFT { screen_rows := 24, screen_cols := 80, c_x := 79, c_y := 23 } =
      { screen_rows := 24, screen_cols := 80, c_x := max (79 - 1) 0, c_y := 23 } ∧
    editor_move_cursor ARROW_RIGHT { screen_rows := 24, screen_cols := 80, c_x := 79, c_y := 23 } =
      { screen_rows := 24, screen_cols := 80, c_x := min (79 + 1) (80 - 1), c_y := 23 } :=
  let h := C13_saturating_step { screen_rows := 24, screen_cols := 80, c_x := 79, c_y := 23 }
    (by decide) (by decide) (by decide)
  ⟨h.1, h.2.1⟩

/-! ## The quit key, plain bytes, and the clear-screen sequence -/

theorem editor_process_key_ret_of_ne (c : Int) (E : EditorConfig) (w : World)
    (hq : c ≠ CTRL_KEY (chr 'q')) : ∃ E2, editor_process_key c E w = .ret E2 w := by
  unfold editor_process_key
  rw [if_neg hq]
  split_ifs
  · exact ⟨_, rfl⟩
  · exact ⟨_, rfl⟩
  · exact ⟨_, rfl⟩

/-- No call of `editor_read_key` ends the process. -/
theorem editor_read_key_not_exited (char_signed : Bool) (w : World) (status : Int)
    (w2 : World) : editor_read_key char_signed w ≠ .exited status w2 := by
  unfold editor_read_key
  have hl := editor_read_key_loop_not_exited char_signed w w.input
  cases hk : editor_read_key_loop char_signed w w.input with
  | ret c w1 =>
    simp only
    split_ifs <;> (repeat' split) <;> simp
  | exited s w1 => exact absurd hk (hl s w1)
  | blocked => simp
  | undefined => simp

/-- C15 (quit key).  `CTRL_KEY('q')` is 0x11, the byte `q` with the bits 0x60
cleared.  On that key the `switch` of `editor_process_keypress` performs
`clear_screen`, then `reposition_cursor` (the writes of 0x1B `[` `2` `j` and of
0x1B `[` `H`), then calls `exit(EXIT_SUCCESS)`; on every other key it returns and
the process goes on.  Hence a call of `editor_process_keypress` ends the process
exactly when the key that `editor_read_key` decodes is 0x11, and it does so with
success status. -/
theorem C15_quit_key :
    CTRL_KEY (chr 'q') = 0x11 ∧ (0x11 : Int) = chr 'q' - 0x60 ∧
    (∀ (E : EditorConfig) (w : World),
      editor_process_key 0x11 E w = .exited EXIT_SUCCESS (reposition_cursor (clear_screen w)) ∧
      (reposition_cursor (clear_screen w)).writes =
        w.writes ++ [(STDIN_FILENO, "\x1b[2j".toList), (STDIN_FILENO, "\x1b[H".toList)]) ∧
    (∀ (c : Int) (E : EditorConfig) (w : World), c ≠ 0x11 →
      ∃ E2, editor_process_key c E w = .ret E2 w) ∧
    (∀ (char_signed : Bool) (E : EditorConfig) (w : World) (status : Int) (w2 : World),
      editor_process_keypress char_signed E w = .exited status w2 ↔
        ∃ w1, editor_read_key char_signed w = .ret 0x11 w1 ∧ status = EXIT_SUCCESS ∧
          w2 = reposition_cursor (clear_screen w1)) := by
  have hq : CTRL_KEY (chr 'q') = 0x11 := by decide
  refine ⟨hq, by decide, ?_, ?_, ?_⟩
  · intro E w
    constructor
    · simp [editor_process_key, hq]
    · simp [reposition_cursor, clear_screen, sys_write]
  · intro c E w hc
    exact editor_process_key_ret_of_ne c E w (by rw [hq]; exact hc)
  · intro cs E w status w2
    unfold editor_process_keypress
    cases hk : editor_read_key cs w with
    | ret c w1 =>
      simp only
      by_cases hc : c = 0x11
      · subst hc
        simp only [editor_process_key, hq, if_true, Result.exited.injEq, Result.ret.injEq,
          true_and]
        constructor
        · rintro ⟨hs, hw⟩
          exact ⟨w1, rfl, hs.symm, hw.symm⟩
        · rintro ⟨w3, rfl, hs, hw⟩
          exact ⟨hs.symm, hw.symm⟩
      · obtain ⟨E2, h2⟩ := editor_process_key_ret_of_ne c E w1 (by rw [hq]; exact hc)
        rw [h2]
        constructor
        · intro h
          cases h
        · rintro ⟨w3, h3, -, -⟩
          cases h3
          exact absurd rfl hc
    | exited s w1 =>
      exact absurd hk (editor_read_key_not_exited cs w s w1)
    | blocked =>
      constructor
      · intro h
        cases h
      · rintro ⟨w3, h3, -, -⟩
        cases h3
    | undefined =>
      constructor
      · intro h
        cases h
      · rintro ⟨w3, h3, -, -⟩
        cases h3

theorem editor_read_key_timeouts (char_signed : Bool) (w : World) (n : Nat)
    (s : List ReadResult) :
    editor_read_key char_signed { w with input := List.replicate n .timeout ++ s } =
      editor_read_key char_signed { w with input := s } := by
  induction n with
  | zero => rfl
  | succ n ih =>
    rw [← ih]
    simp only [editor_read_key, List.replicate_succ, List.cons_append]
    rw [editor_read_key_loop_skip _ _ _ _ (by simp [ReadResult.ret])]
    cases n <;> cases s <;> rfl

/-- Counterexample to C16 as stated.  Where plain `char` is signed, the byte
200 read after no timeout at all is returned as the key -56, not as 200. -/
theorem C16_plain_byte_counterexample :
    (200 : Fin 256) ≠ 0x1b ∧
    editor_read_key true { input := [.byte 200] } = .ret (-56) { input := [] } ∧
    editor_read_key true { input := [.byte 200] } ≠ .ret 200 { input := [] } := by
  decide

/-- C16 (plain bytes with transparent retry), amended.  For every number `n`
of reads that time out and every byte `b` other than 0x1B that follows them,
`editor_read_key` returns, without writing, reporting or ending the process, and
with exactly the outcomes after `b` left in the input, the value of the `char`
object that holds `b`: that value is `b` itself when `b < 128` or plain `char`
is unsigned, and `b - 256` when plain `char` is signed and `b >= 128`. -/
theorem C16_plain_byte (char_signed : Bool) (w : World) (n : Nat) (b : Fin 256)
    (rest : List ReadResult) (hb : b ≠ 0x1b) :
    editor_read_key char_signed { w with input := List.replicate n .timeout ++ .byte b :: rest } =
      .ret (char_of_byte char_signed b) { w with input := rest } ∧
    (b.val < 128 ∨ char_signed = false → char_of_byte char_signed b = (b.val : Int)) ∧
    (char_signed = true ∧ 128 ≤ b.val → char_of_byte char_signed b = (b.val : Int) - 256) := by
  have hne : char_of_byte char_signed b ≠ ESCAPE_CHAR := by
    intro h
    have h27 := (char_of_byte_eq_iff char_signed b 27 (by decide)).1 h
    exact hb (Fin.ext h27)
  refine ⟨?_, ?_, ?_⟩
  · rw [editor_read_key_timeouts]
    simp [editor_read_key, editor_read_key_loop_byte, hne]
  · intro h
    unfold char_of_byte
    rcases h with h | h
    · rw [if_neg (by omega)]
    · rw [if_neg (by simp [h])]
  · rintro ⟨hs, h128⟩
    unfold char_of_byte
    rw [if_pos ⟨hs, h128⟩]

/-- Witness of C16: two timeouts, then the byte `a`, then the byte `b`. -/
theorem C16_plain_byte_witness :
    editor_read_key false
        { input := List.replicate 2 .timeout ++ .byte (ascii 'a') :: [.byte (ascii 'b')] } =
      .ret (char_of_byte false (ascii 'a')) { input := [.byte (ascii 'b')] } :=
  (C16_plain_byte false {} 2 (ascii 'a') [.byte (ascii 'b')] (by decide)).1

/-- C18 (clear-screen sequence), as the code behaves.  The one write of
`clear_screen` hands over the four bytes 0x1B `[` `2` `j`, whose final byte is
the lowercase `j` (0x6A), not the 0x1B `[` `2` `J` of the erase-display
sequence; the write goes to descriptor `STDIN_FILENO`. -/
theorem C18_clear_screen_bytes :
    (∀ w : World, (clear_screen w).writes =
      w.writes ++ [(STDIN_FILENO, ['\x1b', '[', '2', 'j'])]) ∧
    (clear_screen {}).writes ≠ [(STDIN_FILENO, ['\x1b', '[', '2', 'J'])] ∧
    (clear_screen {}).writes ≠ [(STDOUT_FILENO, ['\x1b', '[', '2', 'J'])] ∧
    ('j'.toNat = 0x6a ∧ 'J'.toNat = 0x4a) := by
  refine ⟨?_, by decide, by decide, by decide⟩
  intro w
  simp [clear_screen, sys_write]

/-- C17 (append-buffer discipline).  Let `len >= 0` and let `s` hold at least
`len` bytes.  If `realloc` succeeds, `ab_append` leaves the buffer holding the
old bytes followed by the first `len` bytes of `s`, with `len` grown by `len`:
the old bytes are a prefix of the new ones, nothing is cut off, and a `len`
field that equalled the number of bytes held still does.  If `realloc` fails,
the buffer is exactly what it was before the call.  Either way the call is free
of undefined behaviour. -/
theorem C17_append_discipline (ab : AppendBuffer) (s : List Char) (len : Int)
    (allocs : List Bool) (h0 : 0 ≤ len) (hs : len ≤ (s.length : Int)) :
    ab_append s len (ab, true :: allocs) =
      some ({ buf := ab.buf ++ s.take len.toNat, len := ab.len + len }, allocs) ∧
    ab_append s len (ab, []) =
      some ({ buf := ab.buf ++ s.take len.toNat, len := ab.len + len }, []) ∧
    ab_append s len (ab, false :: allocs) = some (ab, allocs) ∧
    ((ab.buf ++ s.take len.toNat).length : Int) = (ab.buf.length : Int) + len ∧
    (ab.buf ++ s.take len.toNat).take ab.buf.length = ab.buf ∧
    (ab.buf ++ s.take len.toNat).drop ab.buf.length = s.take len.toNat ∧
    (ab.len = (ab.buf.length : Int) →
      ab.len + len = ((ab.buf ++ s.take len.toNat).length : Int)) := by
  have hl : ¬ (len < 0 ∨ (s.length : Int) < len) := by omega
  have hlen : ((s.take len.toNat).length : Int) = len := by
    rw [List.length_take]
    omega
  refine ⟨?_, ?_, ?_, ?_, ?_, ?_, ?_⟩
  · simp [ab_append, next_alloc, hl]
  · simp [ab_append, next_alloc, hl]
  · simp [ab_append, next_alloc]
  · rw [List.length_append]
    push_cast
    omega
  · simp
  · simp
  · intro hab
    rw [List.length_append]
    push_cast
    omega

/-- Witness of C17: the three bytes `abc` appended to a buffer that holds
`xy`. -/
theorem C17_append_discipline_witness :
    ab_append "abcd".toList 3 ({ buf := "xy".toList, len := 2 }, true :: []) =
      some ({ buf := "xy".toList ++ "abcd".toList.take (3 : Int).toNat, len := 2 + 3 }, []) ∧
    ab_append "abcd".toList 3 ({ buf := "xy".toList, len := 2 }, false :: []) =
      some ({ buf := "xy".toList, len := 2 }, []) :=
  let h := C17_append_discipline { buf := "xy".toList, len := 2 } "abcd".toList 3 []
    (by decide) (by decide)
  ⟨h.1, h.2.2.1⟩

/-! ## Input consumed by one call of the decoder -/

theorem byte_count_append (l1 l2 : List ReadResult) :
    byte_count (l1 ++ l2) = byte_count l1 + byte_count l2 := by
  induction l1 with
  | nil => simp [byte_count]
  | cons r l ih =>
    cases r <;> simp [byte_count, ih]
    omega

theorem editor_read_key_loop_consumed (char_signed : Bool) (w : World) (l : List ReadResult)
    (c : Int) (w1 : World) (h : editor_read_key_loop char_signed w l = .ret c w1) :
    ∃ consumed, l = consumed ++ w1.input ∧ byte_count consumed = 1 := by
  induction l generalizing w with
  | nil => simp [editor_read_key_loop] at h
  | cons r rest ih =>
    cases r with
    | byte b =>
      rw [editor_read_key_loop_byte] at h
      cases h
      exact ⟨[.byte b], rfl, rfl⟩
    | timeout =>
      rw [editor_read_key_loop_skip _ _ _ _ (by simp [ReadResult.ret])] at h
      obtain ⟨cons, h1, h2⟩ := ih _ h
      exact ⟨.timeout :: cons, by rw [h1]; rfl, by simpa [byte_count] using h2⟩
    | error e =>
      rw [editor_read_key_loop_skip _ _ _ _ (by simp [ReadResult.ret])] at h
      obtain ⟨cons, h1, h2⟩ := ih _ h
      exact ⟨.error e :: cons, by rw [h1]; rfl, by simpa [byte_count] using h2⟩

theorem read_stdin_consumed (w : World) (r : ReadResult) (w1 : World)
    (h : read_stdin w = (r, w1)) :
    ∃ consumed, w.input = consumed ++ w1.input ∧ byte_count consumed ≤ 1 := by
  unfold read_stdin at h
  cases hi : w.input with
  | nil =>
    rw [hi] at h
    cases h
    exact ⟨[], by simp [hi], by simp [byte_count]⟩
  | cons x rest =>
    rw [hi] at h
    simp only [Prod.mk.injEq] at h
    obtain ⟨rfl, rfl⟩ := h
    refine ⟨[x], ?_, ?_⟩
    · cases x <;> simp [World.after_read]
    · cases x <;> simp [byte_count]

/-- One call of `editor_read_key` that returns has consumed a front part of the
pending input that holds at most four bytes. -/
theorem editor_read_key_consumed (char_signed : Bool) (w : World) (k : Int) (w2 : World)
    (h : editor_read_key char_signed w = .ret k w2) :
    ∃ consumed, w.input = consumed ++ w2.input ∧ byte_count consumed ≤ 4 := by
  unfold editor_read_key at h
  cases hl : editor_read_key_loop char_signed w w.input with
  | exited s w1 => rw [hl] at h; cases h
  | blocked => rw [hl] at h; cases h
  | undefined => rw [hl] at h; cases h
  | ret c w1 =>
    rw [hl] at h
    obtain ⟨c0, e0, n0⟩ := editor_read_key_loop_consumed char_signed w w.input c w1 hl
    simp only at h
    by_cases hc : c = ESCAPE_CHAR
    · rw [if_pos hc] at h
      rcases hr1 : read_stdin w1 with ⟨r1, wa⟩
      obtain ⟨c1, e1, n1⟩ := read_stdin_consumed w1 r1 wa hr1
      have ha : w.input = (c0 ++ c1) ++ wa.input := by rw [e0, e1, List.append_assoc]
      have na : byte_count (c0 ++ c1) ≤ 2 := by rw [byte_count_append]; omega
      rw [hr1] at h
      cases r1 with
      | timeout => simp only at h; cases h; exact ⟨_, ha, by omega⟩
      | error e => simp only at h; cases h; exact ⟨_, ha, by omega⟩
      | byte b0 =>
        simp only at h
        rcases hr2 : read_stdin wa with ⟨r2, wb⟩
        obtain ⟨c2, e2, n2⟩ := read_stdin_consumed wa r2 wb hr2
        have hb : w.input = (c0 ++ c1 ++ c2) ++ wb.input := by
          rw [ha, e2, List.append_assoc (c0 ++ c1)]
        have nb : byte_count (c0 ++ c1 ++ c2) ≤ 3 := by rw [byte_count_append]; omega
        rw [hr2] at h
        cases r2 with
        | timeout => simp only at h; cases h; exact ⟨_, hb, by omega⟩
        | error e => simp only at h; cases h; exact ⟨_, hb, by omega⟩
        | byte b1 =>
          simp only at h
          rcases hr3 : read_stdin wb with ⟨r3, wc⟩
          obtain ⟨c3, e3, n3⟩ := read_stdin_consumed wb r3 wc hr3
          have hcc : w.input = (c0 ++ c1 ++ c2 ++ c3) ++ wc.input := by
            rw [hb, e3, List.append_assoc (c0 ++ c1 ++ c2)]
          have nc : byte_count (c0 ++ c1 ++ c2 ++ c3) ≤ 4 := by
            rw [byte_count_append]; omega
          rw [hr3] at h
          cases r3 <;> simp only at h <;> split_ifs at h <;> cases h <;>
            first | exact ⟨_, hcc, nc⟩ | exact ⟨_, hb, by omega⟩
    · rw [if_neg hc] at h
      cases h
      exact ⟨c0, e0, by omega⟩

/-- C20 (unrecognised escape sequences swallow their follow-up bytes).  After
0x1B, two follow-up bytes `a` and `b` with `a` other than `[`, or with `a` equal
to `[` and `b` neither a digit nor one of `A`, `B`, `C`, `D`, make
`editor_read_key` return the bare escape with all three bytes consumed: the
input left is what came after `b`, so no later call sees `a` or `b`.  Likewise
0x1B `[` digit `f` with `f` other than `~` is consumed whole, all four bytes.
And every call of `editor_read_key` that returns has consumed a front part of
the input holding at most four bytes. -/
theorem C20_swallowed_bytes (char_signed : Bool) (w : World) (rest : List ReadResult) :
    (∀ a b : Fin 256,
      (a ≠ ascii '[' ∨ (¬ (ascii '0' ≤ b ∧ b ≤ ascii '9') ∧ b ≠ ascii 'A' ∧ b ≠ ascii 'B' ∧
        b ≠ ascii 'C' ∧ b ≠ ascii 'D')) →
      editor_read_key char_signed { w with input := .byte 0x1b :: .byte a :: .byte b :: rest } =
        .ret ESCAPE_CHAR { w with input := rest }) ∧
    (∀ d f : Fin 256, ascii '0' ≤ d ∧ d ≤ ascii '9' → f ≠ ascii '~' →
      editor_read_key char_signed
          { w with input := .byte 0x1b :: .byte (ascii '[') :: .byte d :: .byte f :: rest } =
        .ret ESCAPE_CHAR { w with input := rest }) ∧
    (∀ (w0 : World) (k : Int) (w2 : World), editor_read_key char_signed w0 = .ret k w2 →
      ∃ consumed, w0.input = consumed ++ w2.input ∧ byte_count consumed ≤ 4) := by
  have c0 : chr '0' = 48 := rfl
  have c9 : chr '9' = 57 := rfl
  have cA : chr 'A' = 65 := rfl
  have cB : chr 'B' = 66 := rfl
  have cC : chr 'C' = 67 := rfl
  have cD : chr 'D' = 68 := rfl
  have cb : chr '[' = 91 := rfl
  have ct : chr '~' = 126 := rfl
  refine ⟨?_, ?_, fun w0 k w2 h => editor_read_key_consumed char_signed w0 k w2 h⟩
  · intro a b hab
    have ha : char_of_byte char_signed a = 91 ↔ a.val = 91 :=
      char_of_byte_eq_iff char_signed a 91 (by decide)
    simp only [editor_read_key, editor_read_key_loop_byte, read_stdin, World.after_read,
      char_of_byte_esc, if_true, cb, c0, c9, cA, cB, cC, cD]
    rcases hab with hne | ⟨hdig, hA, hB, hC, hD⟩
    · have : ¬ char_of_byte char_signed a = 91 := by
        rw [ha]
        intro h
        exact hne (Fin.ext h)
      rw [if_neg this]
    · have hbA := char_of_byte_eq_iff char_signed b 65 (by decide)
      have hbB := char_of_byte_eq_iff char_signed b 66 (by decide)
      have hbC := char_of_byte_eq_iff char_signed b 67 (by decide)
      have hbD := char_of_byte_eq_iff char_signed b 68 (by decide)
      have nA : ¬ b.val = 65 := fun h => hA (Fin.ext h)
      have nB : ¬ b.val = 66 := fun h => hB (Fin.ext h)
      have nC : ¬ b.val = 67 := fun h => hC (Fin.ext h)
      have nD : ¬ b.val = 68 := fun h => hD (Fin.ext h)
      have hnd : ¬ (char_of_byte char_signed b ≥ 48 ∧ char_of_byte char_signed b ≤ 57) := by
        intro ⟨h1, h2⟩
        apply hdig
        have hval : (48 : Nat) ≤ b.val ∧ b.val ≤ 57 := by
          unfold char_of_byte at h1 h2
          split_ifs at h1 h2 <;> omega
        exact ⟨hval.1, hval.2⟩
      have mA : ¬ char_of_byte char_signed b = 65 := fun h => nA (hbA.1 h)
      have mB : ¬ char_of_byte char_signed b = 66 := fun h => nB (hbB.1 h)
      have mC : ¬ char_of_byte char_signed b = 67 := fun h => nC (hbC.1 h)
      have mD : ¬ char_of_byte char_signed b = 68 := fun h => nD (hbD.1 h)
      rw [if_neg hnd, if_neg mA, if_neg mB, if_neg mC, if_neg mD]
      simp only [ite_self]
  · intro d f hd hf
    obtain ⟨hd0, hd9⟩ := hd
    have h0 : 48 ≤ d.val := hd0
    have h9 : d.val ≤ 57 := hd9
    have hdv : char_of_byte char_signed d = (d.val : Int) :=
      char_of_byte_of_lt char_signed d (by omega)
    have hfv : ¬ char_of_byte char_signed f = 126 := fun h =>
      hf (Fin.ext ((char_of_byte_eq_iff char_signed f 126 (by decide)).1 h))
    have hdig : (d.val : Int) ≥ 48 ∧ (d.val : Int) ≤ 57 := by omega
    simp only [editor_read_key, editor_read_key_loop_byte, read_stdin, World.after_read,
      char_of_byte_esc, char_of_byte_ascii char_signed '[' (by decide), if_true, hdv, c0, c9, ct,
      hdig, and_self, hfv, if_false]

/-! ## The structure of the rows -/

theorem appends_output {f : AppendBuffer × List Bool → Option (AppendBuffer × List Bool)}
    {out : List Char} (hf : Appends f out) :
    (match f (ab_init, []) with
      | some (ab, _) => ab.buf
      | none => []) = out := by
  obtain ⟨al, e, -⟩ := hf ab_init [] (by intro b hb; cases hb)
  rw [e]
  simp [ab_init]

theorem appends_row_content (E : EditorConfig) (c : Nat) (hc : E.screen_cols = (c : Int))
    (i : Int) : Appends (draw_row_content E i) (row_content E i) := by
  obtain ⟨out, h⟩ := appends_draw_row_content E c hc i
  have e : row_content E i = out := appends_output h
  rw [e]
  exact h

theorem row_content_filler (E : EditorConfig) (i : Int) (hi : i ≠ Int.tdiv E.screen_rows 3) :
    row_content E i = ['~'] := by
  have h : Appends (draw_row_content E i) (List.take 1 "~".toList) := by
    rw [draw_row_content_filler E i hi]
    exact appends_ab_append "~".toList 1 (by decide)
  exact appends_output h

/-- Every character of the content of a row is the glyph, a blank, or a
character of the banner text. -/
theorem row_content_chars (E : EditorConfig) (c : Nat) (hc : E.screen_cols = (c : Int))
    (i : Int) : ∀ x ∈ row_content E i,
      x = '~' ∨ x = ' ' ∨ x ∈ "Kilo editor -- version 0.0.1".toList := by
  by_cases hi : i = Int.tdiv E.screen_rows 3
  · by_cases h29 : c ≤ 29
    · have h : Appends (draw_row_content E i)
          (List.take (min c 28) "Kilo editor -- version 0.0.1".toList) := by
        rw [draw_row_content_narrow E i c hi hc h29]
        exact appends_ab_append _ (min c 28) (by simp [Nat.min_def]; split_ifs <;> omega)
      rw [show row_content E i = _ from appends_output h]
      intro x hx
      exact Or.inr (Or.inr (List.mem_of_mem_take hx))
    · obtain ⟨p, hp⟩ : ∃ p : Nat, ((p + 1 : Nat) : Int) = (E.screen_cols - 28) / 2 :=
        ⟨((E.screen_cols - 28) / 2 - 1).toNat, by omega⟩
      have h : Appends (draw_row_content E i)
          (List.take 1 "~".toList ++ List.replicate p ' ' ++
            List.take 28 "Kilo editor -- version 0.0.1".toList) := by
        rw [draw_row_content_wide E i p hi hp]
        exact appends_bind
          (appends_bind (appends_ab_append "~".toList 1 (by decide)) (appends_pad_loop p))
          (appends_ab_append "Kilo editor -- version 0.0.1".toList 28 (by decide))
      rw [show row_content E i = _ from appends_output h]
      intro x hx
      rw [List.mem_append, List.mem_append] at hx
      rcases hx with (hx | hx) | hx
      · left
        simpa using hx
      · right; left
        exact (List.mem_replicate.1 hx).2
      · right; right
        exact List.mem_of_mem_take hx
  · rw [row_content_filler E i hi]
    intro x hx
    left
    simpa using hx

theorem row_content_count_zero (E : EditorConfig) (c : Nat) (hc : E.screen_cols = (c : Int))
    (i : Int) (x : Char) (h1 : x ≠ '~') (h2 : x ≠ ' ')
    (h3 : x ∉ "Kilo editor -- version 0.0.1".toList) : (row_content E i).count x = 0 := by
  rw [List.count_eq_zero]
  intro hx
  rcases row_content_chars E c hc i x hx with h | h | h
  · exact h1 h
  · exact h2 h
  · exact h3 h

theorem appends_row_segment (E : EditorConfig) (c : Nat) (hc : E.screen_cols = (c : Int))
    (i : Nat) : Appends (draw_row E (i : Int)) (row_segment E i) := by
  rw [draw_row_eq]
  unfold row_segment
  refine appends_bind (appends_bind (appends_row_content E c hc i)
    (appends_ab_append "\x1b[K".toList 3 (by decide))) ?_
  split_ifs
  · exact appends_ab_append "\r\n".toList 2 (by decide)
  · exact appends_some

theorem appends_draw_rows_loop_segments (E : EditorConfig) (c : Nat)
    (hc : E.screen_cols = (c : Int)) (n i : Nat) (h : ((i + n : Nat) : Int) ≤ E.screen_rows) :
    Appends (draw_rows_loop E n (i : Int)) ((List.range' i n).flatMap (row_segment E)) := by
  induction n generalizing i with
  | zero =>
    rw [draw_rows_loop_done E 0 i (Or.inl rfl)]
    exact appends_some
  | succ n ih =>
    have hi : (i : Int) < E.screen_rows := by omega
    rw [draw_rows_loop_succ E n i hi, List.range'_succ, List.flatMap_cons]
    have h2 := ih (i + 1) (by omega)
    have e : ((i + 1 : Nat) : Int) = (i : Int) + 1 := by omega
    rw [e] at h2
    exact appends_bind (appends_row_segment E c hc i) h2

/-- With every `realloc` call succeeding, `editor_draw_rows` appends the rows
of index 0 up to `screen_rows - 1`, one segment for each. -/
theorem appends_editor_draw_rows_segments (E : EditorConfig) (c : Nat)
    (hc : E.screen_cols = (c : Int)) (hrows : 0 ≤ E.screen_rows) :
    Appends (editor_draw_rows E) ((List.range E.screen_rows.toNat).flatMap (row_segment E)) := by
  have e : editor_draw_rows E = draw_rows_loop E E.screen_rows.toNat ((0 : Nat) : Int) := rfl
  rw [e, List.range_eq_range']
  exact appends_draw_rows_loop_segments E c hc _ 0 (by omega)

theorem sum_map_range_ones (f : Nat → Nat) (n : Nat) (h : ∀ i, i < n → f i = 1) :
    ((List.range n).map f).sum = n := by
  induction n with
  | zero => simp
  | succ m ih =>
    rw [List.range_succ, List.map_append, List.sum_append, ih (fun i hi => h i (by omega))]
    simp [h m (by omega)]

theorem sum_map_range_all_but_last (f : Nat → Nat) (n : Nat) (h1 : ∀ i, i + 1 < n → f i = 1)
    (h2 : ∀ i, i + 1 = n → f i = 0) : ((List.range n).map f).sum = n - 1 := by
  cases n with
  | zero => simp
  | succ m =>
    rw [List.range_succ, List.map_append, List.sum_append,
      sum_map_range_ones f m (fun i hi => h1 i (by omega))]
    simp [h2 m rfl]

theorem row_segment_counts (E : EditorConfig) (c : Nat) (hc : E.screen_cols = (c : Int))
    (i : Nat) :
    (row_segment E i).count '\x1b' = 1 ∧
    (row_segment E i).count '\r' = (if (i : Int) < E.screen_rows - 1 then 1 else 0) ∧
    (row_segment E i).count '\n' = (if (i : Int) < E.screen_rows - 1 then 1 else 0) := by
  have z1 := row_content_count_zero E c hc i '\x1b' (by decide) (by decide) (by decide)
  have z2 := row_content_count_zero E c hc i '\r' (by decide) (by decide) (by decide)
  have z3 := row_content_count_zero E c hc i '\n' (by decide) (by decide) (by decide)
  unfold row_segment
  simp only [List.count_append, z1, z2, z3]
  split_ifs <;> refine ⟨by decide, by decide, by decide⟩

/-- C11 (row structure).  In a viewport of at least one row whose width is not
negative, and with every `realloc` call succeeding, what `editor_draw_rows`
appends to the buffer is the concatenation, over the row indices 0 up to
`screen_rows - 1`, of the content of the row, the sequence 0x1B `[` `K`, and a
separator that is a carriage return and a line feed for every row but the last
and nothing for the last.  The content of every row other than the banner row
`screen_rows / 3` is the single byte `~`.  Hence the output holds exactly
`screen_rows` escape bytes, each the head of an erase-to-end-of-line sequence,
exactly `screen_rows - 1` carriage returns and as many line feeds, and it ends
in 0x1B `[` `K`, not in a carriage return and line feed. -/
theorem C11_row_structure (E : EditorConfig) (hrows : 1 ≤ E.screen_rows)
    (hcols : 0 ≤ E.screen_cols) :
    (∀ ab allocs, all_succeed allocs → ∃ allocs2,
      editor_draw_rows E (ab, allocs) =
        some ({ buf := ab.buf ++ (List.range E.screen_rows.toNat).flatMap (fun i =>
                  row_content E (i : Int) ++ "\x1b[K".toList ++
                    (if (i : Int) < E.screen_rows - 1 then "\r\n".toList else [])),
                len := ab.len + (((List.range E.screen_rows.toNat).flatMap (fun i =>
                  row_content E (i : Int) ++ "\x1b[K".toList ++
                    (if (i : Int) < E.screen_rows - 1 then "\r\n".toList else []))).length : Int) },
          allocs2)) ∧
    (∀ i : Int, i ≠ Int.tdiv E.screen_rows 3 → row_content E i = ['~']) ∧
    ((List.range E.screen_rows.toNat).flatMap (row_segment E)).count '\x1b' =
      E.screen_rows.toNat ∧
    ((List.range E.screen_rows.toNat).flatMap (row_segment E)).count '\r' =
      E.screen_rows.toNat - 1 ∧
    ((List.range E.screen_rows.toNat).flatMap (row_segment E)).count '\n' =
      E.screen_rows.toNat - 1 ∧
    List.IsSuffix "\x1b[K".toList ((List.range E.screen_rows.toNat).flatMap (row_segment E)) ∧
    ¬ List.IsSuffix "\r\n".toList ((List.range E.screen_rows.toNat).flatMap (row_segment E)) := by
  obtain ⟨c, hc⟩ : ∃ c : Nat, E.screen_cols = (c : Int) := ⟨E.screen_cols.toNat, by omega⟩
  obtain ⟨m, hm⟩ : ∃ m : Nat, E.screen_rows.toNat = m + 1 := ⟨E.screen_rows.toNat - 1, by omega⟩
  have hseg : (fun i : Nat => row_content E (i : Int) ++ "\x1b[K".toList ++
      (if (i : Int) < E.screen_rows - 1 then "\r\n".toList else [])) = row_segment E := rfl
  have hsuf : List.IsSuffix "\x1b[K".toList
      ((List.range E.screen_rows.toNat).flatMap (row_segment E)) := by
    rw [hm, List.range_succ, List.flatMap_append]
    have hlast : ¬ ((m : Int) < E.screen_rows - 1) := by omega
    simp only [List.flatMap_cons, List.flatMap_nil, List.append_nil, row_segment, hlast, if_false]
    exact ⟨_, by rw [List.append_assoc]⟩
  refine ⟨?_, fun i hi => row_content_filler E i hi, ?_, ?_, ?_, hsuf, ?_⟩
  · intro ab allocs hal
    rw [hseg]
    obtain ⟨al, e, -⟩ := appends_editor_draw_rows_segments E c hc (by omega) ab allocs hal
    exact ⟨al, e⟩
  · rw [List.count_flatMap]
    exact sum_map_range_ones _ _ (fun i _ => (row_segment_counts E c hc i).1)
  · rw [List.count_flatMap]
    apply sum_map_range_all_but_last
    · intro i hi
      rw [Function.comp_apply, (row_segment_counts E c hc i).2.1, if_pos (by omega)]
    · intro i hi
      rw [Function.comp_apply, (row_segment_counts E c hc i).2.1, if_neg (by omega)]
  · rw [List.count_flatMap]
    apply sum_map_range_all_but_last
    · intro i hi
      rw [Function.comp_apply, (row_segment_counts E c hc i).2.2, if_pos (by omega)]
    · intro i hi
      rw [Function.comp_apply, (row_segment_counts E c hc i).2.2, if_neg (by omega)]
  · intro hcr
    obtain ⟨p1, h1⟩ := hsuf
    obtain ⟨p2, h2⟩ := hcr
    have l1 := congrArg List.getLast? h1
    have l2 := congrArg List.getLast? h2
    rw [← l2] at l1
    simp at l1

/-- Witness of C11: a viewport of 3 rows and 40 columns. -/
theorem C11_row_structure_witness :
    ((List.range (3 : Int).toNat).flatMap
      (row_segment { screen_rows := 3, screen_cols := 40 })).count '\x1b' = (3 : Int).toNat ∧
    ((List.range (3 : Int).toNat).flatMap
      (row_segment { screen_rows := 3, screen_cols := 40 })).count '\r' = (3 : Int).toNat - 1 :=
  let h := C11_row_structure { screen_rows := 3, screen_cols := 40 } (by decide) (by decide)
  ⟨h.2.2.1, h.2.2.2.1⟩

/-! ## Window size -/

/-- C14 (geometry positive on success), as the code behaves.  Through the
`ioctl` query a success of `get_window_size` gives at least one row and one
column, because `_get_win_size_by_ioctl` rejects a zero `ws_row` or `ws_col`.
Through the cursor-position fallback it need not: the reply 0x1B `[` `0` `;`
`0` `R` makes `get_window_size` return 0 with `screen_rows = 0` and
`screen_cols = 0`, and the reply 0x1B `[` `-` `5` `;` `-` `3` `R` makes it
return 0 with `screen_rows = -5` and `screen_cols = -3`. -/
theorem C14_window_size :
    (∀ (char_signed : Bool) (E : EditorConfig) (w : World) (ws : Fin 65536 × Fin 65536),
      w.winsize = some ws → ws.1.val ≠ 0 → ws.2.val ≠ 0 →
      get_window_size char_signed E w =
        ({ E with screen_rows := (ws.1.val : Int), screen_cols := (ws.2.val : Int) }, .ret 0 w) ∧
      1 ≤ (ws.1.val : Int) ∧ 1 ≤ (ws.2.val : Int)) ∧
    get_window_size true { screen_rows := 0, screen_cols := 0 }
        { input := [.byte 0x1b, .byte (ascii '['), .byte (ascii '0'), .byte (ascii ';'),
            .byte (ascii '0'), .byte (ascii 'R')] } =
      ({ screen_rows := 0, screen_cols := 0 },
        .ret 0 { writes := [(STDOUT_FILENO, "\x1b[999C\x1b[999B".toList),
          (STDOUT_FILENO, "\x1b[6n".toList)] }) ∧
    get_window_size true { screen_rows := 0, screen_cols := 0 }
        { input := [.byte 0x1b, .byte (ascii '['), .byte (ascii '-'), .byte (ascii '5'),
            .byte (ascii ';'), .byte (ascii '-'), .byte (ascii '3'), .byte (ascii 'R')] } =
      ({ screen_rows := -5, screen_cols := -3 },
        .ret 0 { writes := [(STDOUT_FILENO, "\x1b[999C\x1b[999B".toList),
          (STDOUT_FILENO, "\x1b[6n".toList)] }) := by
  refine ⟨?_, by decide, by decide⟩
  intro cs E w ws hws h1 h2
  refine ⟨?_, by omega, by omega⟩
  obtain ⟨r, c⟩ := ws
  simp only at h1 h2
  simp [get_window_size, _get_win_size_by_ioctl, hws, h1, h2]

/-! ## Raw mode and its restoration -/

theorem after_read_terminal (w : World) (r : ReadResult) (rest : List ReadResult) :
    (w.after_read r rest).terminal = w.terminal := by
  cases r <;> rfl

theorem read_stdin_terminal (w : World) : (read_stdin w).2.terminal = w.terminal := by
  unfold read_stdin
  cases w.input with
  | nil => rfl
  | cons r rest => exact after_read_terminal w r rest

theorem die_terminal {α : Type} (msg : String) (w : World) :
    ∃ w2, (die msg w : Result α) = .exited EXIT_FAILURE w2 ∧ w2.terminal = w.terminal ∧
      w2.perrors = w.perrors ++ [msg] :=
  ⟨_, rfl, rfl, rfl⟩

theorem editor_read_key_loop_terminal (char_signed : Bool) (w : World) (l : List ReadResult)
    (c : Int) (w1 : World) (h : editor_read_key_loop char_signed w l = .ret c w1) :
    w1.terminal = w.terminal := by
  induction l generalizing w with
  | nil => simp [editor_read_key_loop] at h
  | cons r rest ih =>
    cases r with
    | byte b =>
      rw [editor_read_key_loop_byte] at h
      cases h
      rfl
    | timeout =>
      rw [editor_read_key_loop_skip _ _ _ _ (by simp [ReadResult.ret])] at h
      exact (ih _ h).trans (after_read_terminal w _ rest)
    | error e =>
      rw [editor_read_key_loop_skip _ _ _ _ (by simp [ReadResult.ret])] at h
      exact (ih _ h).trans (after_read_terminal w _ rest)

theorem editor_read_key_terminal (char_signed : Bool) (w : World) (k : Int) (w2 : World)
    (h : editor_read_key char_signed w = .ret k w2) : w2.terminal = w.terminal := by
  unfold editor_read_key at h
  cases hl : editor_read_key_loop char_signed w w.input with
  | exited s w1 => rw [hl] at h; cases h
  | blocked => rw [hl] at h; cases h
  | undefined => rw [hl] at h; cases h
  | ret c w1 =>
    rw [hl] at h
    have t0 := editor_read_key_loop_terminal char_signed w w.input c w1 hl
    simp only at h
    by_cases hc : c = ESCAPE_CHAR
    · rw [if_pos hc] at h
      rcases hr1 : read_stdin w1 with ⟨r1, wa⟩
      have ta : wa.terminal = w.terminal := by
        have := read_stdin_terminal w1
        rw [hr1] at this
        exact this.trans t0
      rw [hr1] at h
      cases r1 with
      | timeout => simp only at h; cases h; exact ta
      | error e => simp only at h; cases h; exact ta
      | byte b0 =>
        simp only at h
        rcases hr2 : read_stdin wa with ⟨r2, wb⟩
        have tb : wb.terminal = w.terminal := by
          have := read_stdin_terminal wa
          rw [hr2] at this
          exact this.trans ta
        rw [hr2] at h
        cases r2 with
        | timeout => simp only at h; cases h; exact tb
        | error e => simp only at h; cases h; exact tb
        | byte b1 =>
          simp only at h
          rcases hr3 : read_stdin wb with ⟨r3, wc⟩
          have tc : wc.terminal = w.terminal := by
            have := read_stdin_terminal wb
            rw [hr3] at this
            exact this.trans tb
          rw [hr3] at h
          cases r3 <;> simp only at h <;> split_ifs at h <;> cases h <;>
            first | exact tc | exact tb
    · rw [if_neg hc] at h
      cases h
      exact t0

theorem editor_move_cursor_orig (key : Int) (E : EditorConfig) :
    (editor_move_cursor key E).orig_termios = E.orig_termios := by
  unfold editor_move_cursor
  split_ifs <;> rfl

theorem page_loop_orig (c : Int) (fuel : Nat) (i : Int) (E : EditorConfig) :
    (page_loop c fuel i E).orig_termios = E.orig_termios := by
  induction fuel generalizing i E with
  | zero => rfl
  | succ n ih =>
    rw [page_loop]
    by_cases hi : i < E.screen_rows
    · rw [if_pos hi]
      exact (ih _ _).trans (editor_move_cursor_orig _ E)
    · rw [if_neg hi]

/-- The `switch` of `editor_process_keypress` leaves the terminal attributes
and the saved attributes alone, whether it returns or calls `exit`. -/
theorem editor_process_key_terminal (c : Int) (E : EditorConfig) (w : World) :
    (∃ E2, editor_process_key c E w = .ret E2 w ∧ E2.orig_termios = E.orig_termios) ∨
    (∃ w2, editor_process_key c E w = .exited EXIT_SUCCESS w2 ∧ w2.terminal = w.terminal) := by
  unfold editor_process_key
  split_ifs
  · exact Or.inr ⟨_, rfl, rfl⟩
  · exact Or.inl ⟨_, rfl, editor_move_cursor_orig c E⟩
  · exact Or.inl ⟨_, rfl, page_loop_orig c _ 0 E⟩
  · exact Or.inl ⟨E, rfl, rfl⟩

theorem editor_process_keypress_terminal (char_signed : Bool) (E : EditorConfig) (w : World) :
    (∀ E2 w2, editor_process_keypress char_signed E w = .ret E2 w2 →
      w2.terminal = w.terminal ∧ E2.orig_termios = E.orig_termios) ∧
    (∀ s w2, editor_process_keypress char_signed E w = .exited s w2 →
      w2.terminal = w.terminal) := by
  unfold editor_process_keypress
  cases hk : editor_read_key char_signed w with
  | ret c w1 =>
    have t1 := editor_read_key_terminal char_signed w c w1 hk
    simp only
    rcases editor_process_key_terminal c E w1 with ⟨E3, h3, o3⟩ | ⟨w3, h3, t3⟩
    · rw [h3]
      constructor
      · intro E2 w2 h
        cases h
        exact ⟨t1, o3⟩
      · intro s w2 h
        cases h
    · rw [h3]
      constructor
      · intro E2 w2 h
        cases h
      · intro s w2 h
        cases h
        exact t3.trans t1
  | exited s w1 => exact absurd hk (editor_read_key_not_exited char_signed w s w1)
  | blocked => exact ⟨fun _ _ h => (by cases h), fun _ _ h => (by cases h)⟩
  | undefined => exact ⟨fun _ _ h => (by cases h), fun _ _ h => (by cases h)⟩

/-- One call of `editor_refresh_screen` never calls `exit`, and a call that
returns leaves the terminal attributes alone. -/
theorem editor_refresh_screen_terminal (E : EditorConfig) (w : World) :
    (∀ w2, editor_refresh_screen E w = .ret () w2 → w2.terminal = w.terminal) ∧
    (∀ s w2, editor_refresh_screen E w ≠ .exited s w2) := by
  rw [editor_refresh_screen_eq]
  split
  · exact ⟨fun _ h => (by cases h), fun _ _ h => (by cases h)⟩
  · constructor
    · intro w2 h
      cases h
      rfl
    · intro s w2 h
      cases h

theorem main_loop_terminal (char_signed : Bool) (n : Nat) (E : EditorConfig) (w : World)
    (E2 : EditorConfig) (s : Int) (w2 : World)
    (h : main_loop char_signed n E w = (E2, .exited s w2)) :
    w2.terminal = w.terminal ∧ E2.orig_termios = E.orig_termios := by
  induction n generalizing E w with
  | zero => simp [main_loop] at h
  | succ n ih =>
    rw [main_loop] at h
    obtain ⟨hr1, hr2⟩ := editor_refresh_screen_terminal E w
    cases hr : editor_refresh_screen E w with
    | ret u w1 =>
      cases u
      rw [hr] at h
      simp only at h
      have t1 := hr1 w1 hr
      obtain ⟨hp1, hp2⟩ := editor_process_keypress_terminal char_signed E w1
      cases hp : editor_process_keypress char_signed E w1 with
      | ret E3 w3 =>
        rw [hp] at h
        simp only at h
        obtain ⟨t3, o3⟩ := hp1 E3 w3 hp
        obtain ⟨t4, o4⟩ := ih E3 w3 h
        exact ⟨t4.trans (t3.trans t1), o4.trans o3⟩
      | exited s3 w3 =>
        rw [hp] at h
        simp only [Prod.mk.injEq, Result.exited.injEq] at h
        obtain ⟨rfl, rfl, rfl⟩ := h
        exact ⟨(hp2 _ _ hp).trans t1, rfl⟩
      | blocked => rw [hp] at h; simp at h
      | undefined => rw [hp] at h; simp at h
    | exited s1 w1 => exact absurd hr (hr2 s1 w1)
    | blocked => rw [hr] at h; simp at h
    | undefined => rw [hr] at h; simp at h

theorem read_reply_terminal (char_signed : Bool) (fuel : Nat) (w : World)
    (buf : List (Fin 256)) : (read_reply char_signed fuel w buf).2.terminal = w.terminal := by
  induction fuel generalizing w buf with
  | zero => rfl
  | succ n ih =>
    rw [read_reply]
    have hr := read_stdin_terminal w
    rcases hrs : read_stdin w with ⟨r, w1⟩
    rw [hrs] at hr
    cases r with
    | byte b =>
      simp only
      split_ifs
      · exact hr
      · exact (ih w1 _).trans hr
    | timeout => exact hr
    | error e => exact hr

theorem sscanf_rows_cols_orig (s : List Int) (E : EditorConfig) (n : Int) (E2 : EditorConfig)
    (h : sscanf_rows_cols s E = some (n, E2)) : E2.orig_termios = E.orig_termios := by
  unfold sscanf_rows_cols at h
  split at h
  · cases h
  · cases h
    rfl
  · simp only at h
    split at h
    · split_ifs at h
      · split at h
        · cases h
        · cases h
          rfl
        · cases h
          rfl
      · cases h
        rfl
    · cases h
      rfl

/-- Function `_get_win_size_by_cursor` never calls `exit`; it leaves the saved
attributes alone, and when it returns it has left the terminal attributes
alone. -/
theorem get_win_size_by_cursor_terminal (char_signed : Bool) (E : EditorConfig) (w : World) :
    (_get_win_size_by_cursor char_signed E w).1.orig_termios = E.orig_termios ∧
    (∀ res w2, (_get_win_size_by_cursor char_signed E w).2 = .ret res w2 →
      w2.terminal = w.terminal) ∧
    (∀ s w2, (_get_win_size_by_cursor char_signed E w).2 ≠ .exited s w2) := by
  have ht := read_reply_terminal char_signed 31
    (sys_write STDOUT_FILENO ("\x1b[6n".toList.take 4)
      (sys_write STDOUT_FILENO ("\x1b[999C\x1b[999B".toList.take 12) w)) []
  unfold _get_win_size_by_cursor
  simp only [sys_write_ret]
  split_ifs <;> (try split) <;> (try split_ifs) <;>
    first
    | exact ⟨rfl, fun _ _ h => (by cases h <;> first | rfl | exact ht),
        fun _ _ h => (by cases h)⟩
    | exact ⟨sscanf_rows_cols_orig _ _ _ _ (by assumption),
        fun _ _ h => (by cases h; first | rfl | exact ht), fun _ _ h => (by cases h)⟩

theorem get_win_size_by_ioctl_cases (E : EditorConfig) (w : World) :
    _get_win_size_by_ioctl E w = (E, -1) ∨
    ∃ E2, _get_win_size_by_ioctl E w = (E2, 0) ∧ E2.orig_termios = E.orig_termios := by
  unfold _get_win_size_by_ioctl
  split
  · exact Or.inl rfl
  · split_ifs
    · exact Or.inl rfl
    · exact Or.inr ⟨_, rfl, rfl⟩

theorem get_window_size_terminal (char_signed : Bool) (E : EditorConfig) (w : World) :
    (get_window_size char_signed E w).1.orig_termios = E.orig_termios ∧
    (∀ res w2, (get_window_size char_signed E w).2 = .ret res w2 → w2.terminal = w.terminal) ∧
    (∀ s w2, (get_window_size char_signed E w).2 ≠ .exited s w2) := by
  unfold get_window_size
  rcases get_win_size_by_ioctl_cases E w with h | ⟨E2, h, ho⟩
  · rw [h]
    simp only [ne_eq, show ¬ ((-1 : Int) = 0) by decide, not_false_eq_true, if_true]
    exact get_win_size_by_cursor_terminal char_signed E w
  · rw [h]
    simp only [ne_eq, not_true_eq_false, if_false]
    exact ⟨ho, fun _ _ h => (by cases h; rfl), fun _ _ h => (by cases h)⟩

/-- Function `init_editor` leaves the saved attributes and the terminal
attributes alone, whether it returns or leaves through `die`. -/
theorem init_editor_terminal (char_signed : Bool) (E : EditorConfig) (w : World) :
    (init_editor char_signed E w).1.orig_termios = E.orig_termios ∧
    (∀ w2, (init_editor char_signed E w).2 = .ret () w2 → w2.terminal = w.terminal) ∧
    (∀ s w2, (init_editor char_signed E w).2 = .exited s w2 → w2.terminal = w.terminal) := by
  obtain ⟨ho, hret, hex⟩ := get_window_size_terminal char_signed E w
  unfold init_editor
  rcases hg : get_window_size char_signed E w with ⟨E1, r⟩
  rw [hg] at ho hret hex
  simp only at ho hret hex
  cases r with
  | ret res w1 =>
    have t1 := hret res w1 rfl
    simp only
    split_ifs
    · exact ⟨ho, fun _ h => (by cases h), fun _ _ h => (by cases h; exact t1)⟩
    · exact ⟨ho, fun _ h => (by cases h; exact t1), fun _ _ h => (by cases h)⟩
  | exited s w1 => exact absurd rfl (hex s w1)
  | blocked => exact ⟨ho, fun _ h => (by cases h), fun _ _ h => (by cases h)⟩
  | undefined => exact ⟨ho, fun _ h => (by cases h), fun _ _ h => (by cases h)⟩

theorem next_tc_terminal (w : World) :
    (next_tc w).2.termios = w.termios ∧ (next_tc w).2.exit_handlers = w.exit_handlers ∧
    (next_tc w).2.perrors = w.perrors := by
  unfold next_tc
  split <;> exact ⟨rfl, rfl, rfl⟩

/-- Function `enable_raw_mode`, once `tcgetattr` has succeeded: the saved
attributes are those of the terminal, `disable_raw_mode` is registered, and a
call that leaves through `die` has left the terminal attributes as they
were. -/
theorem enable_raw_mode_captured (E : EditorConfig) (w : World)
    (hcap : (tcgetattr w).1 = some w.termios) :
    (enable_raw_mode E w).1.orig_termios = w.termios ∧
    (∀ w1, (enable_raw_mode E w).2 = .ret () w1 → w1.exit_handlers = w.exit_handlers + 1) ∧
    (∀ s w1, (enable_raw_mode E w).2 = .exited s w1 →
      w1.exit_handlers = w.exit_handlers + 1 ∧ w1.termios = w.termios) := by
  unfold tcgetattr at hcap
  unfold enable_raw_mode tcgetattr
  obtain ⟨ht, hh, -⟩ := next_tc_terminal w
  rcases hn : next_tc w with ⟨ok, wa⟩
  rw [hn] at hcap ht hh
  simp only at ht hh
  cases ok with
  | false => simp at hcap
  | true =>
    simp only [tcsetattr]
    obtain ⟨ht2, hh2, -⟩ := next_tc_terminal { wa with exit_handlers := wa.exit_handlers + 1 }
    rcases hn2 : next_tc { wa with exit_handlers := wa.exit_handlers + 1 } with ⟨ok2, wb⟩
    rw [hn2] at ht2 hh2
    simp only at ht2 hh2
    cases ok2 with
    | true =>
      simp only [show ¬ ((0 : Int) = -1) by decide, if_false]
      refine ⟨ht, ?_, ?_⟩
      · intro w1 h
        cases h
        show wb.exit_handlers = _
        rw [hh2, hh]
      · intro s w1 h
        cases h
    | false =>
      simp only [if_true]
      refine ⟨ht, ?_, ?_⟩
      · intro w1 h
        cases h
      · intro s w1 h
        cases h
        constructor
        · show wb.exit_handlers = _
          rw [hh2, hh]
        · show wb.termios = _
          rw [ht2, ht]

/-- Library function `exit` with `disable_raw_mode` registered once: when the
`tcsetattr` call of the handler succeeds the process terminates with the saved
attributes restored; when it fails the handler calls `exit` again through
`die`, with the terminal attributes left as they were. -/
theorem run_exit_registered (status : Int) (E : EditorConfig) (w : World)
    (hreg : w.exit_handlers = 1) :
    ((tcsetattr E.orig_termios w).1 = 0 →
      ∃ w2, run_exit status E w = .terminated status w2 ∧ w2.termios = E.orig_termios ∧
        w2.perrors = w.perrors) ∧
    ((tcsetattr E.orig_termios w).1 = -1 →
      ∃ w2, run_exit status E w = .undefined w2 ∧ w2.termios = w.termios ∧
        w2.perrors = w.perrors ++ ["tcsetattr"]) := by
  unfold run_exit
  rw [hreg]
  simp only [run_handlers, disable_raw_mode, tcsetattr]
  obtain ⟨ht, hh, hp⟩ := next_tc_terminal w
  rcases hn : next_tc w with ⟨ok, wa⟩
  rw [hn] at ht hh hp
  simp only at ht hh hp
  cases ok with
  | true =>
    simp only [show ¬ ((0 : Int) = -1) by decide, if_false]
    exact ⟨fun _ => ⟨_, rfl, rfl, hp⟩, fun h => absurd h (by decide)⟩
  | false =>
    simp only [if_true]
    refine ⟨fun h => absurd h (by decide), fun _ => ⟨_, rfl, ?_, ?_⟩⟩
    · exact ht
    · show wa.perrors ++ _ = _
      rw [hp]

/-- A run of `main` that has called `exit`, `tcgetattr` having succeeded: the
saved attributes are those the terminal had at the start, and
`disable_raw_mode` is registered exactly once. -/
theorem main_steps_exited (char_signed : Bool) (n : Nat) (E0 : EditorConfig) (w : World)
    (E : EditorConfig) (s : Int) (w1 : World) (h0 : w.exit_handlers = 0)
    (hcap : (tcgetattr w).1 = some w.termios)
    (hend : main_steps char_signed n E0 w = (E, .exited s w1)) :
    E.orig_termios = w.termios ∧ w1.exit_handlers = 1 := by
  obtain ⟨ho, hret, hex⟩ := enable_raw_mode_captured E0 w hcap
  unfold main_steps at hend
  rcases he : enable_raw_mode E0 w with ⟨Ea, ra⟩
  rw [he] at hend ho hret hex
  simp only at ho hret hex
  cases ra with
  | ret u wa =>
    cases u
    have ha := hret wa rfl
    simp only at hend
    obtain ⟨io, iret, iex⟩ := init_editor_terminal char_signed Ea wa
    rcases hi : init_editor char_signed Ea wa with ⟨Eb, rb⟩
    rw [hi] at hend io iret iex
    simp only at io iret iex
    cases rb with
    | ret u wb =>
      cases u
      simp only at hend
      obtain ⟨t, o⟩ := main_loop_terminal char_signed n Eb wb E s w1 hend
      have tb := iret wb rfl
      have e1 : w1.exit_handlers = wa.exit_handlers := by
        have := congrArg (fun p => p.2.2) (t.trans tb)
        exact this
      exact ⟨o.trans (io.trans ho), by rw [e1, ha, h0]⟩
    | exited s2 wb =>
      simp only [Prod.mk.injEq, Result.exited.injEq] at hend
      obtain ⟨rfl, rfl, rfl⟩ := hend
      have tb := iex _ _ rfl
      have e1 : wb.exit_handlers = wa.exit_handlers := congrArg (fun p => p.2.2) tb
      exact ⟨io.trans ho, by rw [e1, ha, h0]⟩
    | blocked => simp at hend
    | undefined => simp at hend
  | exited s2 wa =>
    simp only [Prod.mk.injEq, Result.exited.injEq] at hend
    obtain ⟨rfl, rfl, rfl⟩ := hend
    obtain ⟨ha, -⟩ := hex _ _ rfl
    exact ⟨ho, by rw [ha, h0]⟩
  | blocked => simp at hend
  | undefined => simp at hend

/-- Counterexample to C19 as stated.  The terminal is in cooked mode,
`tcgetattr` and the `tcsetattr` that enters raw mode succeed, the user types
Ctrl+Q, and the `tcsetattr` of `disable_raw_mode` fails at exit: `die` is then
called from within the exit handler, and the process is left with the raw
attributes, which differ from the captured ones. -/
theorem C19_restoration_counterexample :
    (tcgetattr (quit_world [true, true, false])).1 = some cooked_termios ∧
    (main_ending true 1 global_config (quit_world [true, true, false])).map
        (fun e => (e.world.termios, e.world.perrors)) =
      some (raw_termios cooked_termios, ["tcsetattr"]) ∧
    raw_termios cooked_termios = { c_iflag := 0, c_oflag := 0, c_cflag := CS8, c_lflag := 0 } ∧
    raw_termios cooked_termios ≠ cooked_termios := by
  decide

/-- C19 (round-trip restoration), amended.  Take any run of `main` from a
process start with no exit handler registered, in which `tcgetattr` has
captured the attributes of the terminal, and which calls `exit`, through Ctrl+Q
with success or through `die` with failure, within any number of iterations of
the loop.  The attributes saved in `orig_termios` are then those the terminal had
before raw mode was entered, and `disable_raw_mode` is registered once.  When
the `tcsetattr` call of `disable_raw_mode` succeeds, the process terminates with
the status passed to `exit` and the attribute set of the terminal is exactly the
captured one.  When that call fails, `die("tcsetattr")` runs inside the exit
handler and the terminal keeps the attributes it had when `exit` was called. -/
theorem C19_restoration (char_signed : Bool) (n : Nat) (E0 : EditorConfig) (w : World)
    (E : EditorConfig) (s : Int) (w1 : World) (h0 : w.exit_handlers = 0)
    (hcap : (tcgetattr w).1 = some w.termios)
    (hend : main_steps char_signed n E0 w = (E, .exited s w1)) :
    E.orig_termios = w.termios ∧
    ((tcsetattr E.orig_termios w1).1 = 0 →
      ∃ w2, main_ending char_signed n E0 w = some (.terminated s w2) ∧
        w2.termios = w.termios) ∧
    ((tcsetattr E.orig_termios w1).1 = -1 →
      ∃ w2, main_ending char_signed n E0 w = some (.undefined w2) ∧
        w2.termios = w1.termios ∧ w2.perrors = w1.perrors ++ ["tcsetattr"]) := by
  obtain ⟨ho, hreg⟩ := main_steps_exited char_signed n E0 w E s w1 h0 hcap hend
  obtain ⟨hok, hfail⟩ := run_exit_registered s E w1 hreg
  have hme : main_ending char_signed n E0 w = some (run_exit s E w1) := by
    unfold main_ending
    rw [hend]
  refine ⟨ho, ?_, ?_⟩
  · intro h
    obtain ⟨w2, e, t, -⟩ := hok h
    exact ⟨w2, by rw [hme, e], t.trans ho⟩
  · intro h
    obtain ⟨w2, e, t, p⟩ := hfail h
    exact ⟨w2, by rw [hme, e], t, p⟩

/-- Witness of C19: the terminal is in cooked mode, every `tcgetattr` and
`tcsetattr` call succeeds, and the user types Ctrl+Q; the process terminates
with success and the terminal is back in cooked mode. -/
theorem C19_restoration_witness :
    ∃ w2, main_ending true 1 global_config (quit_world []) =
        some (.terminated EXIT_SUCCESS w2) ∧ w2.termios = (quit_world []).termios :=
  (C19_restoration true 1 global_config (quit_world [])
    { orig_termios := cooked_termios, screen_rows := 1, screen_cols := 1 } EXIT_SUCCESS
    { writes := [(0, "\x1b[2j".toList), (0, "\x1b[H".toList),
        (1, "\x1b[?25l\x1b[HK\x1b[K\x1b[1;1H\x1b[?25h".toList),
        (0, "\x1b[2j".toList), (0, "\x1b[H".toList)]
      termios := raw_termios cooked_termios
      exit_handlers := 1
      winsize := some (1, 1) }
    (by decide) (by decide) (by decide)).2.1 (by decide)

end Killo
